import Mathlib

/-!
# Verification of the MapRPFrontend synchronization core

A shallow embedding of the collaborative-map client's synchronization core:
the inbound message handler (`App.jsx`, `handleIncomingMessage`), the bulk
loader (`MapLoader.jsx`, `processBulkAddPacket`), the geometry validator
(`DrawControl.jsx`: `cleanCoordinatePair`, `cleanCoordinatesRecursive`,
`ensurePolygonClosedAndClean`), the layer reconciliation pass
(`DrawControl.jsx`, the shapes-sync effect together with
`applyCurrentStyles`), and the stats projection (`App.jsx`,
`getShapeStats`).

JavaScript dynamic values are modelled by the inductive type `JVal`;
JavaScript numbers are modelled exactly-precision (`JNum`: an exact
rational, or `NaN`/`Infinity`/`-Infinity`).  Code that can raise a
`TypeError` is modelled in `Except Unit`.
-/

/-- A JavaScript number: `NaN`, the two infinities, or a finite value
(modelled as an exact rational). -/
inductive JNum where
  | nan
  | inf
  | ninf
  | fin (q : ℚ)
deriving DecidableEq

/-- `Number.isFinite` on a `JNum` (no coercion). -/
def JNum.isFinite : JNum → Bool
  | .fin _ => true
  | _ => false

/-- A JavaScript value as it occurs in coordinate payloads: `undefined`,
`null`, a boolean, a number, a string, or an array. -/
inductive JVal where
  | undef
  | null
  | bool (b : Bool)
  | num (n : JNum)
  | str (s : String)
  | arr (elems : List JVal)

mutual
/-- Decidable structural equality for `JVal`. -/
def decEqJVal : (a b : JVal) → Decidable (a = b)
  | .undef, .undef => .isTrue rfl
  | .null, .null => .isTrue rfl
  | .bool a, .bool b =>
    if h : a = b then .isTrue (by rw [h]) else .isFalse (fun hh => h (by cases hh; rfl))
  | .num a, .num b =>
    if h : a = b then .isTrue (by rw [h]) else .isFalse (fun hh => h (by cases hh; rfl))
  | .str a, .str b =>
    if h : a = b then .isTrue (by rw [h]) else .isFalse (fun hh => h (by cases hh; rfl))
  | .arr xs, .arr ys =>
    match decEqJValList xs ys with
    | .isTrue h => .isTrue (by rw [h])
    | .isFalse h => .isFalse (fun hh => h (by cases hh; rfl))
  | .undef, .null => .isFalse (fun h => by cases h)
  | .undef, .bool _ => .isFalse (fun h => by cases h)
  | .undef, .num _ => .isFalse (fun h => by cases h)
  | .undef, .str _ => .isFalse (fun h => by cases h)
  | .undef, .arr _ => .isFalse (fun h => by cases h)
  | .null, .undef => .isFalse (fun h => by cases h)
  | .null, .bool _ => .isFalse (fun h => by cases h)
  | .null, .num _ => .isFalse (fun h => by cases h)
  | .null, .str _ => .isFalse (fun h => by cases h)
  | .null, .arr _ => .isFalse (fun h => by cases h)
  | .bool _, .undef => .isFalse (fun h => by cases h)
  | .bool _, .null => .isFalse (fun h => by cases h)
  | .bool _, .num _ => .isFalse (fun h => by cases h)
  | .bool _, .str _ => .isFalse (fun h => by cases h)
  | .bool _, .arr _ => .isFalse (fun h => by cases h)
  | .num _, .undef => .isFalse (fun h => by cases h)
  | .num _, .null => .isFalse (fun h => by cases h)
  | .num _, .bool _ => .isFalse (fun h => by cases h)
  | .num _, .str _ => .isFalse (fun h => by cases h)
  | .num _, .arr _ => .isFalse (fun h => by cases h)
  | .str _, .undef => .isFalse (fun h => by cases h)
  | .str _, .null => .isFalse (fun h => by cases h)
  | .str _, .bool _ => .isFalse (fun h => by cases h)
  | .str _, .num _ => .isFalse (fun h => by cases h)
  | .str _, .arr _ => .isFalse (fun h => by cases h)
  | .arr _, .undef => .isFalse (fun h => by cases h)
  | .arr _, .null => .isFalse (fun h => by cases h)
  | .arr _, .bool _ => .isFalse (fun h => by cases h)
  | .arr _, .num _ => .isFalse (fun h => by cases h)
  | .arr _, .str _ => .isFalse (fun h => by cases h)

/-- Decidable equality for lists of `JVal`. -/
def decEqJValList : (a b : List JVal) → Decidable (a = b)
  | [], [] => .isTrue rfl
  | [], _ :: _ => .isFalse (fun h => by cases h)
  | _ :: _, [] => .isFalse (fun h => by cases h)
  | x :: xs, y :: ys =>
    match decEqJVal x y with
    | .isTrue h1 =>
      match decEqJValList xs ys with
      | .isTrue h2 => .isTrue (by rw [h1, h2])
      | .isFalse h2 => .isFalse (fun hh => h2 (by cases hh; rfl))
    | .isFalse h1 => .isFalse (fun hh => h1 (by cases hh; rfl))
end

instance : DecidableEq JVal := decEqJVal

/-- `Array.isArray`. -/
def JVal.isArr : JVal → Bool
  | .arr _ => true
  | _ => false

/-- `typeof v === 'number' || typeof v === 'string'` — the element test in
`cleanCoordinatesRecursive`'s leaf-pair condition. -/
def JVal.isNumOrStr : JVal → Bool
  | .num _ => true
  | .str _ => true
  | _ => false

/-- Whether the value is the number `NaN` (used for `x !== x` on a shared
reference). -/
def JVal.isNaNV : JVal → Bool
  | .num .nan => true
  | _ => false

/-- JavaScript strict equality `===`.  Primitives compare by value
(`NaN === NaN` is false); two arrays at distinct references are never
equal.  In every call site embedded here the compared arrays originate
from distinct positions of a freshly `JSON.parse`d structure, so array
operands are modelled as reference-distinct. -/
def jsSEq : JVal → JVal → Bool
  | .undef, .undef => true
  | .null, .null => true
  | .bool a, .bool b => a == b
  | .num a, .num b => a != .nan && b != .nan && a == b
  | .str a, .str b => a == b
  | _, _ => false

/-- JavaScript strict inequality `a !== b`.  `sameRef` records whether the
two operands are the very same evaluation of the same reference (then the
result is true only for `NaN`). -/
def jsNeqStrict (sameRef : Bool) (a b : JVal) : Bool :=
  if sameRef then a.isNaNV else !(jsSEq a b)

/-- Property read `v[i]` for a numeric index: throws a `TypeError` on
`null`/`undefined`; indexes strings by character; indexes arrays (out of
range gives `undefined`); gives `undefined` on other primitives. -/
def jsIndex : JVal → Nat → Except Unit JVal
  | .undef, _ => .error ()
  | .null, _ => .error ()
  | .str s, i => .ok (match s.toList.get? i with
      | some c => .str c.toString
      | none => .undef)
  | .arr xs, i => .ok ((xs.get? i).getD .undef)
  | _, _ => .ok (.undef)

/-- Property read `v.length`: throws on `null`/`undefined`; string and
array lengths; `undefined` on other primitives. -/
def jsLength : JVal → Except Unit JVal
  | .undef => .error ()
  | .null => .error ()
  | .str s => .ok (.num (.fin s.length))
  | .arr xs => .ok (.num (.fin xs.length))
  | _ => .ok (.undef)

/-- JavaScript truthiness. -/
def jsTruthy : JVal → Bool
  | .undef => false
  | .null => false
  | .bool b => b
  | .num .nan => false
  | .num (.fin q) => q != 0
  | .num _ => true
  | .str s => s != ""
  | .arr _ => true

mutual
/-- `String(v)` coercion: the string a JavaScript value converts to.
Finite numbers print their canonical rational representation (an
injective stand-in for the float-to-string conversion; exact for
integers). -/
def jsToStringCoerce : JVal → String
  | .undef => "undefined"
  | .null => "null"
  | .bool b => if b then "true" else "false"
  | .num .nan => "NaN"
  | .num .inf => "Infinity"
  | .num .ninf => "-Infinity"
  | .num (.fin q) => if q.den = 1 then toString q.num else toString q.num ++ "/" ++ toString q.den
  | .str s => s
  | .arr xs => String.intercalate "," (jsArrElemStrings xs)

/-- Elements of `Array.prototype.toString`: `null` and `undefined`
elements print as the empty string. -/
def jsArrElemStrings : List JVal → List String
  | [] => []
  | .undef :: xs => "" :: jsArrElemStrings xs
  | .null :: xs => "" :: jsArrElemStrings xs
  | x :: xs => jsToStringCoerce x :: jsArrElemStrings xs
end

/-- The method call `v.toString()`: throws a `TypeError` on
`null`/`undefined`, otherwise the `String(v)` coercion. -/
def jsToStringMethod : JVal → Except Unit String
  | .undef => .error ()
  | .null => .error ()
  | v => .ok (jsToStringCoerce v)

/-- One decimal digit. -/
def digitVal? (c : Char) : Option ℕ :=
  if c.isDigit then some (c.toNat - '0'.toNat) else none

/-- Consume a maximal run of decimal digits; returns their value, their
count, and the rest. -/
def takeDigits : List Char → ℕ → ℕ → ℕ × ℕ × List Char
  | [], acc, n => (acc, n, [])
  | c :: cs, acc, n =>
    match digitVal? c with
    | some d => takeDigits cs (acc * 10 + d) (n + 1)
    | none => (acc, n, c :: cs)

/-- `parseFloat` on a character list positioned after whitespace and sign:
`Infinity`, or a decimal literal `digits [. digits] [e[sign]digits]`
taking the longest valid prefix; `none` when no digit is found.  The
value `i.f × 10^±e` is assembled as a single exact rational
`mkRat (if·10^fc + fp)·10^e / 10^fc` (a malformed exponent is ignored, so
`parseFloat("1e") = 1`). -/
def parseFloatBody (cs : List Char) : Option ℚ :=
  if cs.take 8 = "Infinity".toList then none  -- handled by the caller (sign-aware)
  else
    let (ip, ic, rest) := takeDigits cs 0 0
    let (fp, fc, rest2) :=
      match rest with
      | '.' :: cs2 => takeDigits cs2 0 0
      | _ => (0, 0, rest)
    if ic + fc = 0 then none
    else
      let mantNum : ℕ := ip * 10 ^ fc + fp
      let rest3 := if rest.head? = some '.' then rest2 else rest
      let (eneg, ev, ec) :=
        match rest3 with
        | 'e' :: cs3 => expPart cs3
        | 'E' :: cs3 => expPart cs3
        | _ => (false, 0, 0)
      if ec = 0 then some (mkRat mantNum (10 ^ fc))
      else if eneg then some (mkRat mantNum (10 ^ fc * 10 ^ ev))
      else some (mkRat (mantNum * 10 ^ ev) (10 ^ fc))
where
  /-- The optional exponent: sign and digit run (a digit count of 0 means
  no valid exponent was present). -/
  expPart (cs : List Char) : Bool × ℕ × ℕ :=
    let (sgn, cs') :=
      match cs with
      | '-' :: t => (true, t)
      | '+' :: t => (false, t)
      | _ => (false, cs)
    let (e, ec, _) := takeDigits cs' 0 0
    (sgn, e, ec)

/-- `parseFloat` on a string: skip leading whitespace, optional sign,
`Infinity` or a decimal literal prefix; `NaN` when nothing parses. -/
def parseFloatString (s : String) : JNum :=
  let cs := s.toList.dropWhile (fun c => c = ' ' || c = '\t' || c = '\n' || c = '\r')
  let (neg, cs') :=
    match cs with
    | '-' :: t => (true, t)
    | '+' :: t => (false, t)
    | _ => (false, cs)
  if cs'.take 8 = "Infinity".toList then (if neg then .ninf else .inf)
  else
    match parseFloatBody cs' with
    | some q => .fin (if neg then -q else q)
    | none => .nan

/-- `parseFloat(v)`: numbers round-trip through their string form to
themselves; other values are coerced to a string and parsed. -/
def jsParseFloat : JVal → JNum
  | .num n => n
  | v => parseFloatString (jsToStringCoerce v)

/-- `Number(v)` coercion (used by the global `isNaN`): full-string
numeric conversion — the empty or blank string is `0`, a string that is
not entirely a numeric literal is `NaN`; arrays convert through their
string form (`[] → 0`, a one-element array converts its element, more
elements give `NaN` from the comma). -/
def jsToNumber : JVal → JNum
  | .undef => .nan
  | .null => .fin 0
  | .bool b => .fin (if b then 1 else 0)
  | .num n => n
  | .str s =>
    let t := s.toList.dropWhile (fun c => c = ' ' || c = '\t' || c = '\n' || c = '\r')
      |>.reverse.dropWhile (fun c => c = ' ' || c = '\t' || c = '\n' || c = '\r') |>.reverse
    if t = [] then .fin 0
    else
      let (neg, t') :=
        match t with
        | '-' :: r => (true, r)
        | '+' :: r => (false, r)
        | _ => (false, t)
      if t' = "Infinity".toList then (if neg then .ninf else .inf)
      else
        match parseFloatBody t' with
        | some q =>
          -- the whole remainder must be consumed for `Number`, unlike `parseFloat`
          if numb_consumes t' then .fin (if neg then -q else q) else .nan
        | none => .nan
  | .arr [] => .fin 0
  | .arr [x] =>
    match x with
    | .undef => .fin 0
    | .null => .fin 0
    | y => jsToNumber y
  | .arr (_ :: _ :: _) => .nan
where
  /-- Whether a character list is exactly one decimal literal. -/
  numb_consumes (cs : List Char) : Bool :=
    let (_, ic, rest) := takeDigits cs 0 0
    let (_, fc, rest2) :=
      match rest with
      | '.' :: cs2 => takeDigits cs2 0 0
      | _ => (0, rest.length, rest)
    if ic + fc = 0 then false
    else
      let rest3 := if rest.head? = some '.' then rest2 else rest
      match rest3 with
      | [] => true
      | 'e' :: cs3 => expConsumes cs3
      | 'E' :: cs3 => expConsumes cs3
      | _ => false
  /-- Whether a character list is exactly `[sign] digits`. -/
  expConsumes (cs : List Char) : Bool :=
    let cs' := match cs with
      | '-' :: t => t
      | '+' :: t => t
      | _ => cs
    let (_, ec, rest) := takeDigits cs' 0 0
    ec ≠ 0 && rest = []

/-- The global `isNaN(v)` (coercing). -/
def jsIsNaN (v : JVal) : Bool := jsToNumber v == .nan

/-!
## GeometryValidator (`DrawControl.jsx` 125–185)
-/

/-- `cleanCoordinatePair` (`DrawControl.jsx` 125–138): a value that is not
an array of length 2 becomes `[0, 0]`; otherwise both entries go through
`parseFloat`, and any `NaN`/non-finite result collapses the pair to
`[0, 0]`. -/
def cleanCoordinatePair : JVal → JVal
  | .arr [a, b] =>
    match jsParseFloat a, jsParseFloat b with
    | .fin lon, .fin lat => .arr [.num (.fin lon), .num (.fin lat)]
    | _, _ => .arr [.num (.fin 0), .num (.fin 0)]
  | _ => .arr [.num (.fin 0), .num (.fin 0)]

/-- The leaf test of `cleanCoordinatesRecursive` (`DrawControl.jsx` 145):
length 2 and both elements of type number or string. -/
def isLeafPair : List JVal → Bool
  | [a, b] => a.isNumOrStr && b.isNumOrStr
  | _ => false

mutual
/-- `cleanCoordinatesRecursive` (`DrawControl.jsx` 140–150): non-arrays
are returned unchanged; a leaf pair is cleaned by `cleanCoordinatePair`;
any other array is mapped recursively. -/
def cleanCoordinatesRecursive : JVal → JVal
  | .arr xs => if isLeafPair xs then cleanCoordinatePair (.arr xs) else .arr (cleanCoordList xs)
  | v => v

/-- Elementwise recursion of `cleanCoordinatesRecursive`. -/
def cleanCoordList : List JVal → List JVal
  | [] => []
  | x :: xs => cleanCoordinatesRecursive x :: cleanCoordList xs
end

/-!
## Feature objects and the JSON deep copy
-/

/-- The `geometry` object of a feature: its `type` tag and coordinate
payload, both dynamic values. -/
structure Geometry where
  gtype : JVal
  coords : JVal

/-- A feature object as handled by the client: its `id`, an optional
`geometry` object and an optional `properties` map (`none` models a
missing/`null` member). -/
structure Feature where
  fid : JVal
  geometry : Option Geometry
  props : Option (List (String × JVal))

deriving instance DecidableEq for Geometry
deriving instance DecidableEq for Feature

instance {e a : Type} [DecidableEq e] [DecidableEq a] : DecidableEq (Except e a) :=
  fun x y =>
    match x, y with
    | .ok u, .ok v =>
      if h : u = v then .isTrue (by rw [h]) else .isFalse (fun hh => h (by cases hh; rfl))
    | .error u, .error v =>
      if h : u = v then .isTrue (by rw [h]) else .isFalse (fun hh => h (by cases hh; rfl))
    | .ok _, .error _ => .isFalse (fun hh => by cases hh)
    | .error _, .ok _ => .isFalse (fun hh => by cases hh)

mutual
/-- The value-level effect of the deep copy
`JSON.parse(JSON.stringify(v))`: `NaN` and the infinities serialize to
`null`; `undefined` array elements come back as `null`; everything else
survives unchanged.  (A top-level `undefined` corresponds to a dropped
object member and stays `undefined`.) -/
def jsonNormalize : JVal → JVal
  | .num .nan => .null
  | .num .inf => .null
  | .num .ninf => .null
  | .arr xs => .arr (jsonNormalizeList xs)
  | v => v

/-- Array elements under the JSON round trip. -/
def jsonNormalizeList : List JVal → List JVal
  | [] => []
  | x :: xs =>
    (match jsonNormalize x with
     | .undef => .null
     | v => v) :: jsonNormalizeList xs
end

/-- The JSON round trip applied to a whole feature: `undefined`-valued
properties are dropped, all values are normalized. -/
def jsonCopyFeature (f : Feature) : Feature :=
  { fid := jsonNormalize f.fid
    geometry := f.geometry.map fun g => ⟨jsonNormalize g.gtype, jsonNormalize g.coords⟩
    props := f.props.map fun ps =>
      (ps.map fun kv => (kv.1, jsonNormalize kv.2)).filter fun kv => !(kv.2 matches .undef) }

/-!
## `ensurePolygonClosedAndClean` (`DrawControl.jsx` 152–185)
-/

/-- `[...v]` — array spread: arrays copy, strings split into characters,
other values raise a `TypeError`. -/
def jsSpread : JVal → Except Unit (List JVal)
  | .arr xs => .ok xs
  | .str s => .ok (s.toList.map fun c => .str c.toString)
  | _ => .error ()

/-- `ring.push([...firstPoint])`. -/
def pushClose (ring : List JVal) (first : JVal) : Except Unit JVal := do
  let sp ← jsSpread first
  pure (.arr (ring ++ [.arr sp]))

/-- The per-ring body of the Polygon loop in `ensurePolygonClosedAndClean`
(`DrawControl.jsx` 167–181): a value that is not a nonempty array is
replaced by the empty ring; otherwise the first and last points are
compared at indices 0 and 1 (short-circuiting, throwing on
`null`/`undefined` points) and, when they differ, a copy of the first
point is appended. -/
def ringFix (r : JVal) : Except Unit JVal :=
  match r with
  | .arr (x :: xs) => do
    let ring := x :: xs
    let lastp := ring.getLast (by simp)
    let sr := xs.isEmpty   -- a one-point ring compares a point with itself
    let f0 ← jsIndex x 0
    let l0 ← jsIndex lastp 0
    if jsNeqStrict sr f0 l0 then
      pushClose ring x
    else do
      let f1 ← jsIndex x 1
      let l1 ← jsIndex lastp 1
      if jsNeqStrict sr f1 l1 then pushClose ring x else pure (.arr ring)
  | _ => pure (.arr [])

/-- The Polygon ring loop: rings are fixed left to right; the first thrown
`TypeError` aborts. -/
def ringsFixList : List JVal → Except Unit (List JVal)
  | [] => .ok []
  | r :: rs => do
    let r' ← ringFix r
    let rs' ← ringsFixList rs
    pure (r' :: rs')

/-- The body of `ensurePolygonClosedAndClean` after the deep copy and the
defaulting of missing members: cleans an array-valued coordinate tree
with `cleanCoordinatesRecursive` and, for `Polygon` geometry, closes
every ring. -/
def ensureCore (fid : JVal) (props : List (String × JVal)) (g : Geometry) :
    Except Unit Feature :=
  match g.coords with
  | .arr cs =>
    if jsSEq g.gtype (.str "Polygon") then
      match cleanCoordinatesRecursive (.arr cs) with
      | .arr rings => do
        let rings' ← ringsFixList rings
        pure ⟨fid, some ⟨g.gtype, .arr rings'⟩, some props⟩
      | other => pure ⟨fid, some ⟨g.gtype, other⟩, some props⟩
    else
      pure ⟨fid, some ⟨g.gtype, cleanCoordinatesRecursive (.arr cs)⟩, some props⟩
  | other => pure ⟨fid, some ⟨g.gtype, other⟩, some props⟩

/-- `ensurePolygonClosedAndClean` (`DrawControl.jsx` 152–185): deep-copies
the feature via the JSON round trip, defaults missing `properties` to `{}`
and missing `geometry` to `{type: null, coordinates: []}`, cleans an
array-valued coordinate tree with `cleanCoordinatesRecursive`, and for
`Polygon` geometry closes every ring.  A `TypeError` raised while
inspecting ring points surfaces as `.error`. -/
def ensurePolygonClosedAndClean (f : Feature) : Except Unit Feature :=
  let fc := jsonCopyFeature f
  ensureCore fc.fid (fc.props.getD []) (fc.geometry.getD ⟨.null, .arr []⟩)

/-!
## Inbound messages (`App.jsx` 135–191, `WebSocketService.jsx`,
`MapLoader.jsx` 18–22)
-/

/-- The `data` member of an inbound envelope: absent, a single feature
object, an array of feature objects, or some other value (a primitive —
anything without a usable `geometry`, and not an array). -/
inductive MsgData where
  | nodata
  | feature (f : Feature)
  | featureList (fs : List Feature)
  | other

/-- An inbound envelope as produced by `JSON.parse` in
`WebSocketService.jsx` (the `message.updates` fallback of `App.jsx` 140 is
never produced by any sender in this repository and is modelled as
absent data). -/
structure Msg where
  mtype : String
  mid : Option JVal
  mdata : MsgData

/-- The outcome of the inbound Polygon coordinate validation loop: an
uncaught `TypeError`, an early `return` discarding the message, or a
pass. -/
inductive PolyCheck where
  | throwEx
  | reject
  | pass
deriving DecidableEq

/-- `for … of` iteration: arrays iterate their elements, strings their
characters; any other value raises a `TypeError`. -/
def forOfElems : JVal → Option (List JVal)
  | .arr xs => some xs
  | .str s => some (s.toList.map fun c => .str c.toString)
  | _ => none

/-- The test applied to one `coordPair` in `handleIncomingMessage`
(`App.jsx` 147): `coordPair.length !== 2 || isNaN(coordPair[0]) ||
isNaN(coordPair[1]) || !Number.isFinite(coordPair[0]) ||
!Number.isFinite(coordPair[1])`, reading `.length` first (which throws on
`null`/`undefined`). -/
def checkCoordPair (p : JVal) : PolyCheck :=
  match jsLength p with
  | .error _ => .throwEx
  | .ok lv =>
    if !(jsSEq lv (.num (.fin 2))) then .reject
    else
      match jsIndex p 0, jsIndex p 1 with
      | .ok a, .ok b =>
        if jsIsNaN a || jsIsNaN b
            || !((match a with | .num n => n | _ => .nan).isFinite)
            || !((match b with | .num n => n | _ => .nan).isFinite) then .reject
        else .pass
      | _, _ => .throwEx

/-- `Number.isFinite(v)` as a `JVal` predicate (no coercion). -/
def jsNumberIsFinite : JVal → Bool
  | .num n => n.isFinite
  | _ => false

/-- The first non-`pass` outcome of a left-to-right sequence of checks. -/
def firstFail (l : List PolyCheck) : PolyCheck :=
  (l.find? (· ≠ .pass)).getD .pass

/-- One ring of the inbound Polygon validation: iterate the ring's
coordinate pairs and stop at the first rejection or throw. -/
def validateRing (ring : JVal) : PolyCheck :=
  match forOfElems ring with
  | none => .throwEx
  | some ps => firstFail (ps.map checkCoordPair)

/-- The inbound Polygon validation loop (`App.jsx` 144–152): iterate the
rings of `geometry.coordinates`; the first invalid coordinate pair
discards the message, a non-iterable value raises. -/
def validatePolygonCoords (coords : JVal) : PolyCheck :=
  match forOfElems coords with
  | none => .throwEx
  | some rings => firstFail (rings.map validateRing)

/-- `message.id || geoJsonData.id` (`App.jsx` 156/164): the envelope's
`id` when present and truthy, otherwise the feature's own `id`. -/
def targetIdOf (msg : Msg) (f : Feature) : JVal :=
  match msg.mid with
  | some v => if jsTruthy v then v else f.fid
  | none => f.fid

/-- `processBulkAddPacket` (`MapLoader.jsx` 18–22): replaces the whole
store with `packet.data` when the packet's type is `bulkAdd` and its data
is an array; otherwise no mutation. -/
def processBulkAddPacket (packet : Msg) (prev : List Feature) : List Feature :=
  if packet.mtype = "bulkAdd" then
    match packet.mdata with
    | .featureList fs => fs
    | _ => prev
  else prev

/-- The `add`/`modify` branch of `handleIncomingMessage` (`App.jsx`
137–177): requires a data object with a `geometry` whose `type` is a
string; Polygon coordinates are validated and an invalid pair discards
the message (`App.jsx` 147–150); `add` appends when the id is absent and
is otherwise a no-op; `modify` replaces in place at the matched index
(overriding the stored `id` with `message.id || data.id`) and falls back
to an append when no feature matches. -/
def applyAddModify (msg : Msg) (prev : List Feature) : List Feature :=
  match msg.mdata with
  | .feature f =>
    match f.geometry with
    | some g =>
      match g.gtype with
      | .str s =>
        if s = "Polygon" ∧ validatePolygonCoords g.coords ≠ .pass then
          -- rejected (early return) or thrown (caught by the transport's
          -- per-message try/catch, `WebSocketService.jsx` 25–31):
          -- either way the store is not mutated
          prev
        else
          let t := targetIdOf msg f
          match prev.findIdx? (fun x => jsSEq x.fid t) with
          | some i => if msg.mtype = "add" then prev else prev.set i { f with fid := t }
          | none => prev ++ [f]
      | _ => prev
    | none => prev
  | _ => prev

/-- `handleIncomingMessage` (`App.jsx` 135–191) as a transformation of the
`shapes` store: `add`/`modify` upsert, `remove` filters by strict id
inequality, `bulkAdd` defers to `processBulkAddPacket`, anything else is
logged and ignored. -/
def handleIncomingMessage (msg : Msg) (prev : List Feature) : List Feature :=
  if msg.mtype = "add" ∨ msg.mtype = "modify" then applyAddModify msg prev
  else if msg.mtype = "remove" then
    prev.filter fun s => !(jsSEq s.fid (msg.mid.getD .undef))
  else if msg.mtype = "bulkAdd" then processBulkAddPacket msg prev
  else prev

/-!
## Layer reconciliation (`DrawControl.jsx` 204–253 and 417–540)
-/

/-- A minimal JSON string escape (quote and backslash); injective, which
is all the geometry comparison relies on. -/
def jsonEscape (s : String) : String :=
  s.toList.foldl (fun acc c =>
    if c = '"' then acc ++ "\x5c\x22"
    else if c = '\x5c' then acc ++ "\x5c\x5c"
    else acc.push c) ""

mutual
/-- `JSON.stringify` of a defined value (an `undefined` at this position
would have been handled by the caller): `NaN` and the infinities
serialize as `null`. -/
def jsonStringify : JVal → String
  | .undef => "null"
  | .null => "null"
  | .bool b => if b then "true" else "false"
  | .num .nan => "null"
  | .num .inf => "null"
  | .num .ninf => "null"
  | .num (.fin q) => if q.den = 1 then toString q.num else toString q.num ++ "/" ++ toString q.den
  | .str s => "\x22" ++ jsonEscape s ++ "\x22"
  | .arr xs => "[" ++ String.intercalate "," (jsonStringifyList xs) ++ "]"

/-- Array elements under `JSON.stringify` (`undefined` elements become
`null`). -/
def jsonStringifyList : List JVal → List String
  | [] => []
  | x :: xs => jsonStringify x :: jsonStringifyList xs
end

/-- Top-level `JSON.stringify`: `undefined` input yields no string at all
(the JavaScript result is `undefined`), so two absent coordinate payloads
compare equal and an absent payload differs from every present one —
exactly the behavior of `!==` on the results. -/
def jsonStringifyTop : JVal → Option String
  | .undef => none
  | v => some (jsonStringify v)

/-- The tracked-layer map `layerMapRef.current`: object keys (strings,
via `String(id)`) to the layer's `feature` (`none` when `layer.feature`
is missing). -/
abbrev LayerMap := List (String × Option Feature)

/-- Object property lookup `lm[k]`: the first binding of `k`. -/
def lmGet (lm : LayerMap) (k : String) : Option (Option Feature) :=
  match lm with
  | [] => none
  | e :: rest => if e.1 = k then some e.2 else lmGet rest k

/-- `delete lm[k]`. -/
def lmErase (lm : LayerMap) (k : String) : LayerMap :=
  List.filter (fun e => !(e.1 == k)) lm

/-- `lm[k] = v`: replaces an existing binding in place, else appends. -/
def lmSet (lm : LayerMap) (k : String) (v : Option Feature) : LayerMap :=
  if (List.find? (fun e => e.1 == k) lm).isSome
  then List.map (fun e => if e.1 == k then (k, v) else e) lm
  else lm ++ [(k, v)]

/-- The key of a feature in the layer map: `String(feature.id)`. -/
def jsKey (v : JVal) : String := jsToStringCoerce v

/-- Observable renderer operations of one reconciliation pass: layer
destructions of the removal pass, layer creations and recreations, and
style (re)applications. -/
inductive SyncEv where
  | removedEv (k : String)
  | createdEv (k : String)
  | recreatedEv (k : String)
  | styledEv (k : String)
deriving DecidableEq

/-- `{...old, ...new}` on property maps: existing keys keep their
position and take the overriding value, new keys are appended. -/
def mergeProps (old new : List (String × JVal)) : List (String × JVal) :=
  (old.map fun kv => (kv.1, (((new.find? (fun e => e.1 == kv.1)).map (·.2)).getD kv.2)))
    ++ new.filter fun e => !(old.any fun o => o.1 == e.1)

/-- `applyCurrentStyles([shape])` (`DrawControl.jsx` 204–253) restricted
to its store-visible effect: when a tracked layer exists for the shape's
id, its `layer.feature.properties` is merged with the shape's properties
and exactly one style application happens; with no tracked layer nothing
happens. -/
def applyStylesOne (lm : LayerMap) (shape : Feature) : List SyncEv × LayerMap :=
  match lmGet lm (jsKey shape.fid) with
  | none => ([], lm)
  | some lst =>
    ([.styledEv (jsKey shape.fid)],
     lmSet lm (jsKey shape.fid)
       (some { lst.getD ⟨.undef, none, some []⟩ with
               props := some (mergeProps
                 ((lst.getD ⟨.undef, none, some []⟩).props.getD [])
                 (shape.props.getD [])) }))

/-- The recreate decision of the shapes-sync effect (`DrawControl.jsx`
445–463): recreate when no layer is tracked, when `layer.feature` or its
geometry is missing, or when the tracked geometry differs from the
cleaned one by `type` or by `JSON.stringify`-serialized coordinates. -/
def syncDecision (tracked : Option (Option Feature)) (cf : Feature) : Bool :=
  match tracked with
  | none => true
  | some none => true
  | some (some lf) =>
    match lf.geometry, cf.geometry with
    | some g, some cg =>
      !(jsSEq g.gtype cg.gtype)
        || !(jsonStringifyTop g.coords == jsonStringifyTop cg.coords)
    | _, _ => true

/-- The effect of one upsert iteration (`DrawControl.jsx` 441–539) on the
layer map, given the already-cleaned feature: on recreate/create the old
layer (if tracked) is destroyed and a new one stored under the cleaned
id; styles are applied to the resulting layer in every branch.  Layer
construction by the renderer is out of scope (spec §1) and modelled as
always succeeding. -/
def syncApply (lm : LayerMap) (f cf : Feature) : List SyncEv × LayerMap :=
  if syncDecision (lmGet lm (jsKey f.fid)) cf then
    ((if (lmGet lm (jsKey f.fid)).isSome
        then [SyncEv.recreatedEv (jsKey f.fid)] else [SyncEv.createdEv (jsKey f.fid)])
      ++ (applyStylesOne
            (lmSet (if (lmGet lm (jsKey f.fid)).isSome
                    then lmErase lm (jsKey f.fid) else lm)
              (jsKey cf.fid) (some cf)) cf).1,
     (applyStylesOne
        (lmSet (if (lmGet lm (jsKey f.fid)).isSome
                then lmErase lm (jsKey f.fid) else lm)
          (jsKey cf.fid) (some cf)) cf).2)
  else
    applyStylesOne lm cf

/-- The per-feature upsert step of the shapes-sync effect
(`DrawControl.jsx` 441–539): clean the feature, then apply the
recreate/keep decision and styling. -/
def syncOne (lm : LayerMap) (f : Feature) : Except Unit (List SyncEv × LayerMap) := do
  let cf ← ensurePolygonClosedAndClean f
  pure (syncApply lm f cf)

/-- The removal pass (`DrawControl.jsx` 420–439): every tracked key not
among the current shape keys is destroyed and dropped. -/
def removalPass (lm : LayerMap) (keys : List String) : List SyncEv × LayerMap :=
  ((List.filter (fun e => !(keys.contains e.1)) lm).map (fun e => SyncEv.removedEv e.1),
   List.filter (fun e => keys.contains e.1) lm)

/-- One fold step of the upsert pass: process one feature, appending its
events. -/
def syncStep (a : List SyncEv × LayerMap) (f : Feature) :
    Except Unit (List SyncEv × LayerMap) := do
  let r ← syncOne a.2 f
  pure (a.1 ++ r.1, r.2)

/-- One full reconciliation pass of the shapes-sync effect
(`DrawControl.jsx` 417–540): compute the shape key set (via
`s.id.toString()`, which throws on `null`/`undefined` ids), run the
removal pass, then upsert every shape left to right, accumulating the
renderer events in order. -/
def syncPass (lm : LayerMap) (shapes : List Feature) :
    Except Unit (List SyncEv × LayerMap) := do
  let keys ← shapes.mapM fun s => jsToStringMethod s.fid
  shapes.foldlM syncStep (removalPass lm keys)

/-!
## Stats projection (`App.jsx` 17–69)

The display metrics are arithmetic over floating-point numbers; the
embedding refines them to exact reals (`Math.sqrt` to `Real.sqrt`,
`Math.PI` to `π`), which captures the formulas the claims are about.
-/

/-- A point `[x, y]`. -/
abbrev SPoint := ℝ × ℝ

/-- The geometry of a shape as destructured by `getShapeStats`, tagged by
`geometry.type` (`otherG` covers any unrecognized tag, which falls to the
`default` branch). -/
inductive SGeom where
  | point (p : SPoint)
  | lineString (ps : List SPoint)
  | polygon (rings : List (List SPoint))
  | circle (center : SPoint)
  | otherG

/-- The properties `getShapeStats` reads: the shape-kind tag, the color,
and the optional radius (`none` models an absent `properties.radius`; a
present radius of `0` is falsy exactly like an absent one). -/
structure SProps where
  ptype : String
  color : String
  radius : Option ℝ

/-- A shape as consumed by `getShapeStats`. -/
structure SFeature where
  geometry : SGeom
  props : SProps

/-- The stats record built by `getShapeStats`; fields absent from the
returned object are `none`. -/
structure Stats where
  stype : String
  color : String
  area : Option ℝ := none
  perimeter : Option ℝ := none
  slength : Option ℝ := none
  position : Option SPoint := none

/-- The cross term `x1*y2 - x2*y1` of the shoelace accumulator
(`App.jsx` 31). -/
noncomputable def crossTerm (p q : SPoint) : ℝ := p.1 * q.2 - q.1 * p.2

/-- The Euclidean distance `Math.sqrt((x2-x1)**2 + (y2-y1)**2)`
(`App.jsx` 37). -/
noncomputable def euclid (p q : SPoint) : ℝ :=
  Real.sqrt ((q.1 - p.1) ^ 2 + (q.2 - p.2) ^ 2)

/-- `coords.reduce((sum, [x1,y1], i) => sum + F(coords[i],
coords[(i+1) % coords.length]), 0)` — the cyclic indexed accumulation
shared by the Polygon area and perimeter reducers (`App.jsx` 29–38). -/
noncomputable def cyclicReduce (F : SPoint → SPoint → ℝ) (ps : List SPoint) : ℝ :=
  (List.range ps.length).foldl
    (fun sum i => sum + F (ps.getD i (0, 0)) (ps.getD ((i + 1) % ps.length) (0, 0))) 0

/-- The LineString reducer (`App.jsx` 43–45): distances between
consecutive points, skipping index 0. -/
noncomputable def lineStringLen : List SPoint → ℝ
  | [] => 0
  | _ :: [] => 0
  | p :: q :: rest => euclid p q + lineStringLen (q :: rest)

/-- `getShapeStats` (`App.jsx` 17–69).  A Polygon reads
`geometry.coordinates[0]` (the code would throw on an empty ring list;
the embedding totalizes that case with the empty ring, and every theorem
below supplies a first ring). -/
noncomputable def getShapeStats (shape : SFeature) : Stats :=
  let base : Stats := { stype := shape.props.ptype, color := shape.props.color }
  match shape.geometry with
  | .polygon rings =>
    let coords := rings.headD []
    { base with
      area := some (cyclicReduce crossTerm coords / 2 / 1000000)
      perimeter := some (cyclicReduce euclid coords / 1000) }
  | .lineString ps =>
    { base with slength := some (lineStringLen ps / 1000) }
  | .point p => { base with position := some p }
  | .circle c =>
    match shape.props.radius with
    | some r =>
      if r ≠ 0 then
        { base with
          area := some (Real.pi * r * r / 1000000)
          perimeter := some (2 * Real.pi * r / 1000)
          position := some c }
      else { base with position := some c }
    | none => { base with position := some c }
  | .otherG => base

/-- The area figure the property panel reports (`App.jsx` 374):
`Math.abs(stats.area)`. -/
noncomputable def displayedArea (s : Stats) : Option ℝ := s.area.map (|·|)

/-!
### The spec-side formulas (§4.5), stated independently of the code

`Modelled from the spec:` the shoelace signed area — "sum of cross terms
over consecutive ring vertices, halved" — and the perimeter — "sum of
consecutive Euclidean distances" — where consecutive vertices are read
cyclically around the ring. -/

/-- The list of consecutive (cyclically adjacent) vertex pairs of a
ring. -/
def consecutivePairs (ps : List SPoint) : List (SPoint × SPoint) :=
  ps.zip (ps.rotate 1)

/-- Spec-side shoelace signed area. -/
noncomputable def shoelaceArea (ps : List SPoint) : ℝ :=
  ((consecutivePairs ps).map fun pq => crossTerm pq.1 pq.2).sum / 2

/-- Spec-side polygon perimeter. -/
noncomputable def polygonPerimeter (ps : List SPoint) : ℝ :=
  ((consecutivePairs ps).map fun pq => euclid pq.1 pq.2).sum

/-!
# Claims

Each claim of the specification is settled by one theorem below (plus a
closed witness when the theorem carries hypotheses, and a closed
counterexample where the claim as stated fails on the code).
-/

/-- **C4.** For every store state and every `add` envelope whose feature
id is already present in the store (some stored feature's `id` is
strictly equal to `message.id || data.id`), applying the envelope leaves
the store unchanged — the idempotent add.  The hypothesis quantifies over
the carried feature, so envelopes whose data fails the GeoJSON checks are
covered as well (they are discarded, also leaving the store
unchanged). -/
theorem c4_idempotent_add (msg : Msg) (prev : List Feature)
    (ht : msg.mtype = "add")
    (hex : ∀ f, msg.mdata = .feature f →
      ∃ g ∈ prev, jsSEq g.fid (targetIdOf msg f) = true) :
    handleIncomingMessage msg prev = prev := by
  unfold handleIncomingMessage
  rw [if_pos (Or.inl ht)]
  unfold applyAddModify
  cases hm : msg.mdata with
  | feature f =>
    obtain ⟨g, hg, hgeq⟩ := hex f hm
    cases hgeo : f.geometry with
    | none => simp only [hgeo]
    | some geo =>
      simp only [hgeo]
      cases hgt : geo.gtype with
      | str s =>
        simp only [hgt]
        by_cases hp : s = "Polygon" ∧ validatePolygonCoords geo.coords ≠ .pass
        · rw [if_pos hp]
        · rw [if_neg hp]
          cases hfi : prev.findIdx? (fun x => jsSEq x.fid (targetIdOf msg f)) with
          | none =>
            rw [List.findIdx?_eq_none_iff] at hfi
            exact absurd (hfi g hg) (by simp [hgeq])
          | some i => simp only [hfi, ht, if_pos]
      | undef => simp only [hgt]
      | null => simp only [hgt]
      | bool b => simp only [hgt]
      | num n => simp only [hgt]
      | arr xs => simp only [hgt]
  | nodata => rfl
  | featureList fs => rfl
  | other => rfl

/-- A concrete feature for witnesses: a point with id 1. -/
def wFeatPt : Feature := ⟨.num (.fin 1), some ⟨.str "Point", .arr [.num (.fin 3), .num (.fin 4)]⟩, some []⟩

/-- Witness for C4: adding a feature whose id 1 is already stored is a
no-op. -/
theorem c4_idempotent_add_witness :
    handleIncomingMessage ⟨"add", none, .feature wFeatPt⟩ [wFeatPt] = [wFeatPt] :=
  c4_idempotent_add _ _ rfl (fun f hf => by
    cases hf
    exact ⟨wFeatPt, by simp, by rfl⟩)

/-- **C5.** A `bulkAdd` envelope whose data is an array of features
replaces the store wholesale with exactly that array; a packet whose data
is not an array, or whose type is not `bulkAdd`, causes no store
mutation. -/
theorem c5_bulkadd_replaces_wholesale (msg : Msg) (prev : List Feature) :
    (∀ fs, msg.mtype = "bulkAdd" → msg.mdata = .featureList fs →
      handleIncomingMessage msg prev = fs)
    ∧ ((msg.mtype ≠ "bulkAdd" ∨ ∀ fs, msg.mdata ≠ .featureList fs) →
      processBulkAddPacket msg prev = prev) := by
  constructor
  · intro fs ht hd
    unfold handleIncomingMessage
    rw [if_neg (by simp [ht]), if_neg (by simp [ht]), if_pos ht]
    unfold processBulkAddPacket
    rw [if_pos ht, hd]
  · intro h
    unfold processBulkAddPacket
    rcases h with h | h
    · rw [if_neg h]
    · by_cases ht : msg.mtype = "bulkAdd"
      · rw [if_pos ht]
        cases hd : msg.mdata with
        | featureList fs => exact absurd hd (h fs)
        | nodata => rfl
        | feature f => rfl
        | other => rfl
      · rw [if_neg ht]

/-- A second concrete feature (id 2) for witnesses. -/
def wFeat2 : Feature := ⟨.num (.fin 2), some ⟨.str "Point", .arr [.num (.fin 5), .num (.fin 6)]⟩, some []⟩

/-- A third concrete feature (id 3) for witnesses. -/
def wFeat3 : Feature := ⟨.num (.fin 3), some ⟨.str "Point", .arr [.num (.fin 7), .num (.fin 8)]⟩, some []⟩

/-- Witness for C5: after prior state `[f3]`, `bulkAdd` of `[f1, f2]`
yields exactly `[f1, f2]`; a `bulkAdd` with no array data mutates
nothing. -/
theorem c5_bulkadd_replaces_wholesale_witness :
    handleIncomingMessage ⟨"bulkAdd", none, .featureList [wFeatPt, wFeat2]⟩ [wFeat3]
        = [wFeatPt, wFeat2]
    ∧ processBulkAddPacket ⟨"bulkAdd", none, .nodata⟩ [wFeat3] = [wFeat3] :=
  ⟨(c5_bulkadd_replaces_wholesale _ _).1 _ rfl rfl,
   (c5_bulkadd_replaces_wholesale _ _).2 (Or.inr (fun _ h => by cases h))⟩

/-- **C6.** A `modify` envelope whose feature passes the GeoJSON checks:
when a stored feature matches `message.id || data.id`, it is replaced in
place at the matched index by the carried feature (with its `id` set to
the matched id) — `List.set` leaves every other position untouched and
preserves the order — and when no feature matches, the envelope degrades
to an append (fallback add). -/
theorem c6_modify_replace_or_append (msg : Msg) (prev : List Feature)
    (f : Feature) (geo : Geometry) (s : String)
    (ht : msg.mtype = "modify") (hd : msg.mdata = .feature f)
    (hg : f.geometry = some geo) (hs : geo.gtype = .str s)
    (hp : ¬(s = "Polygon" ∧ validatePolygonCoords geo.coords ≠ .pass)) :
    (∀ i, prev.findIdx? (fun x => jsSEq x.fid (targetIdOf msg f)) = some i →
      handleIncomingMessage msg prev = prev.set i { f with fid := targetIdOf msg f })
    ∧ (prev.findIdx? (fun x => jsSEq x.fid (targetIdOf msg f)) = none →
      handleIncomingMessage msg prev = prev ++ [f]) := by
  have hmain : handleIncomingMessage msg prev = applyAddModify msg prev := by
    unfold handleIncomingMessage
    rw [if_pos (Or.inr ht)]
  constructor
  · intro i hi
    rw [hmain]
    unfold applyAddModify
    simp only [hd, hg, hs]
    rw [if_neg hp]
    simp only [hi]
    rw [if_neg (by simp [ht])]
  · intro hn
    rw [hmain]
    unfold applyAddModify
    simp only [hd, hg, hs]
    rw [if_neg hp]
    simp only [hn]

/-- The feature carried by the witness `modify` envelope: id 2 with moved
coordinates. -/
def wFeat2Moved : Feature := ⟨.num (.fin 2), some ⟨.str "Point", .arr [.num (.fin 9), .num (.fin 9)]⟩, some []⟩

/-- Witness for C6: modifying id 2 in `[f1, f2]` replaces position 1 in
place. -/
theorem c6_modify_replace_or_append_witness :
    handleIncomingMessage ⟨"modify", some (.num (.fin 2)), .feature wFeat2Moved⟩
        [wFeatPt, wFeat2]
      = [wFeatPt, { wFeat2Moved with fid := .num (.fin 2) }] :=
  (c6_modify_replace_or_append _ _ wFeat2Moved _ "Point" rfl rfl rfl rfl
      (by simp)).1 1 rfl

/-- **C1 (amended).** The code does not auto-correct inbound coordinates:
an `add`/`modify` envelope whose feature is a `Polygon` containing a
coordinate pair that is not a length-2 array of finite numbers is
discarded outright (the store is left unchanged, `App.jsx` 144–152);
only features of every *other* geometry type enter the store regardless
of their coordinate content — the `(0,0)` coercion happens later, in the
render-path validator, not on ingest. -/
theorem c1_polygon_rejected_others_enter (msg : Msg) (prev : List Feature) (f : Feature) :
    (∀ geo, (msg.mtype = "add" ∨ msg.mtype = "modify") → msg.mdata = .feature f →
      f.geometry = some geo → geo.gtype = .str "Polygon" →
      validatePolygonCoords geo.coords ≠ .pass →
      handleIncomingMessage msg prev = prev)
    ∧ (∀ geo s, msg.mtype = "add" → msg.mdata = .feature f →
      f.geometry = some geo → geo.gtype = .str s → s ≠ "Polygon" →
      prev.findIdx? (fun x => jsSEq x.fid (targetIdOf msg f)) = none →
      handleIncomingMessage msg prev = prev ++ [f]) := by
  constructor
  · intro geo hty hd hg hs hv
    unfold handleIncomingMessage
    rw [if_pos hty]
    unfold applyAddModify
    simp only [hd, hg, hs]
    rw [if_pos ⟨by simp, hv⟩]
  · intro geo s hty hd hg hs hnp hfi
    unfold handleIncomingMessage
    rw [if_pos (Or.inl hty)]
    unfold applyAddModify
    simp only [hd, hg, hs]
    rw [if_neg (by exact fun h => hnp h.1)]
    simp only [hfi]

/-- A Polygon feature carrying an `Infinity` coordinate. -/
def wBadPoly : Feature :=
  ⟨.num (.fin 9), some ⟨.str "Polygon", .arr [.arr [.arr [.num .inf, .num (.fin 0)]]]⟩, some []⟩

/-- A Point feature carrying `NaN` coordinates. -/
def wNaNPt : Feature := ⟨.num (.fin 4), some ⟨.str "Point", .arr [.num .nan, .num .nan]⟩, some []⟩

/-- Witness for C1 (amended): the Infinity-carrying Polygon `add` is
discarded, while a `NaN`-carrying Point `add` still enters the store. -/
theorem c1_polygon_rejected_others_enter_witness :
    handleIncomingMessage ⟨"add", none, .feature wBadPoly⟩ [] = []
    ∧ handleIncomingMessage ⟨"add", none, .feature wNaNPt⟩ [] = [] ++ [wNaNPt] :=
  ⟨(c1_polygon_rejected_others_enter _ [] wBadPoly).1 _ (Or.inl rfl) rfl rfl rfl
      (by decide),
   (c1_polygon_rejected_others_enter _ [] wNaNPt).2 _ "Point" rfl rfl rfl rfl
      (by decide) rfl⟩

/-- Counterexample to C1 as stated: the claim says a feature with
non-finite coordinates is never rejected outright and always enters the
store, but this inbound `add` of a Polygon containing the pair
`[Infinity, 0]` leaves the store empty — the feature never enters. -/
theorem c1_counterexample :
    handleIncomingMessage ⟨"add", none, .feature wBadPoly⟩ [] = [] := by
  rfl

/-- **C3 (amended).** Coordinate sanitation, as the code implements it:
a *leaf pair* is a length-2 array whose elements are of type number or
string.  A leaf pair that fails to parse into two finite numbers becomes
exactly `(0,0)`; a leaf pair that parses into finite numbers becomes the
pair of *parsed* numbers — so a pair of finite numbers passes through
unchanged, but a string pair is converted to its numeric values rather
than passing through, and malformed non-leaf nodes (for example
`[1, null]`) are merely recursed into, not replaced by `(0,0)`. -/
theorem c3_coordinate_sanitation (a b : JVal) :
    (a.isNumOrStr = true → b.isNumOrStr = true →
      ¬((jsParseFloat a).isFinite = true ∧ (jsParseFloat b).isFinite = true) →
      cleanCoordinatesRecursive (.arr [a, b]) = .arr [.num (.fin 0), .num (.fin 0)])
    ∧ (∀ p q : ℚ, a.isNumOrStr = true → b.isNumOrStr = true →
      jsParseFloat a = .fin p → jsParseFloat b = .fin q →
      cleanCoordinatesRecursive (.arr [a, b]) = .arr [.num (.fin p), .num (.fin q)])
    ∧ (∀ p q : ℚ,
      cleanCoordinatesRecursive (.arr [.num (.fin p), .num (.fin q)])
        = .arr [.num (.fin p), .num (.fin q)]) := by
  refine ⟨?_, ?_, ?_⟩
  · intro ha hb hnf
    unfold cleanCoordinatesRecursive
    rw [if_pos (by simp [isLeafPair, ha, hb])]
    unfold cleanCoordinatePair
    cases hpa : jsParseFloat a with
    | fin p =>
      cases hpb : jsParseFloat b with
      | fin q => exact absurd ⟨by rw [hpa]; rfl, by rw [hpb]; rfl⟩ hnf
      | nan => simp [hpa, hpb]
      | inf => simp [hpa, hpb]
      | ninf => simp [hpa, hpb]
    | nan => cases hpb : jsParseFloat b <;> simp [hpa, hpb]
    | inf => cases hpb : jsParseFloat b <;> simp [hpa, hpb]
    | ninf => cases hpb : jsParseFloat b <;> simp [hpa, hpb]
  · intro p q ha hb hpa hpb
    unfold cleanCoordinatesRecursive
    rw [if_pos (by simp [isLeafPair, ha, hb])]
    unfold cleanCoordinatePair
    simp [hpa, hpb]
  · intro p q
    rfl

/-- Witness for C3: a malformed leaf pair `["abc", 5]` becomes `(0,0)`;
the finite pair `[3, 4]` passes through unchanged. -/
theorem c3_coordinate_sanitation_witness :
    cleanCoordinatesRecursive (.arr [.str "abc", .num (.fin 5)])
        = .arr [.num (.fin 0), .num (.fin 0)]
    ∧ cleanCoordinatesRecursive (.arr [.num (.fin 3), .num (.fin 4)])
        = .arr [.num (.fin 3), .num (.fin 4)] :=
  ⟨(c3_coordinate_sanitation (.str "abc") (.num (.fin 5))).1 rfl rfl
      (by intro h; exact absurd h.1 (by decide)),
   (c3_coordinate_sanitation (.num (.fin 3)) (.num (.fin 4))).2.2 3 4⟩

/-- Counterexample to C3 as stated: the pair `["1", "2"]` is an array of
length 2 whose elements parse as the finite numbers 1 and 2 — a "valid
finite pair" in the claim's sense — yet validation does *not* pass it
through unchanged: it is rewritten to the numeric pair `[1, 2]`. -/
theorem c3_counterexample :
    cleanCoordinatesRecursive (.arr [.str "1", .str "2"])
        = .arr [.num (.fin 1), .num (.fin 2)]
    ∧ cleanCoordinatesRecursive (.arr [.str "1", .str "2"]) ≠ .arr [.str "1", .str "2"]
    ∧ (jsParseFloat (.str "1")).isFinite = true
    ∧ (jsParseFloat (.str "2")).isFinite = true := by
  refine ⟨by decide, ?_, by decide, by decide⟩
  intro h
  rw [show cleanCoordinatesRecursive (.arr [.str "1", .str "2"])
      = .arr [.num (.fin 1), .num (.fin 2)] from by decide] at h
  simp at h

/-- Whether a value is a leaf coordinate pair (a length-2 array of
numbers/strings). -/
def JVal.isLeafPairV : JVal → Bool
  | .arr xs => isLeafPair xs
  | _ => false

/-- A well-formed Polygon ring input for the closed-ring theorem: not an
array at all (it gets replaced by the empty ring), or an array that is
empty or consists entirely of leaf coordinate pairs. -/
def ringInputOK : JVal → Bool
  | .arr es => es.isEmpty || es.all JVal.isLeafPairV
  | _ => true

/-- The closed-ring property of a validated feature: every array-shaped
ring of its Polygon coordinate array starts and ends with the same
point. -/
def RingsClosed (f : Feature) : Prop :=
  ∀ g, f.geometry = some g → ∀ rs, g.coords = .arr rs →
    ∀ r ∈ rs, ∀ es, r = .arr es → es.head? = es.getLast?

/-- `cleanCoordinatePair` always yields a pair of finite numbers. -/
theorem cleanCoordinatePair_shape (v : JVal) :
    ∃ p q : ℚ, cleanCoordinatePair v = .arr [.num (.fin p), .num (.fin q)] := by
  unfold cleanCoordinatePair
  match v with
  | .arr [a, b] =>
    cases hpa : jsParseFloat a with
    | fin p =>
      cases hpb : jsParseFloat b with
      | fin q => exact ⟨p, q, by simp [hpa, hpb]⟩
      | nan => exact ⟨0, 0, by simp [hpa, hpb]⟩
      | inf => exact ⟨0, 0, by simp [hpa, hpb]⟩
      | ninf => exact ⟨0, 0, by simp [hpa, hpb]⟩
    | nan => exact ⟨0, 0, by cases hpb : jsParseFloat b <;> simp [hpa, hpb]⟩
    | inf => exact ⟨0, 0, by cases hpb : jsParseFloat b <;> simp [hpa, hpb]⟩
    | ninf => exact ⟨0, 0, by cases hpb : jsParseFloat b <;> simp [hpa, hpb]⟩
  | .arr [] => exact ⟨0, 0, rfl⟩
  | .arr [a] => exact ⟨0, 0, rfl⟩
  | .arr (a :: b :: c :: rest) => exact ⟨0, 0, rfl⟩
  | .undef => exact ⟨0, 0, rfl⟩
  | .null => exact ⟨0, 0, rfl⟩
  | .bool x => exact ⟨0, 0, rfl⟩
  | .num n => exact ⟨0, 0, rfl⟩
  | .str s => exact ⟨0, 0, rfl⟩

/-- Cleaning an array yields an array. -/
theorem cleanCoordinatesRecursive_arr (xs : List JVal) :
    ∃ ys, cleanCoordinatesRecursive (.arr xs) = .arr ys := by
  unfold cleanCoordinatesRecursive
  by_cases h : isLeafPair xs = true
  · rw [if_pos h]
    obtain ⟨p, q, hpq⟩ := cleanCoordinatePair_shape (.arr xs)
    exact ⟨_, hpq⟩
  · rw [if_neg h]
    exact ⟨_, rfl⟩

/-- A value of pair shape. -/
def IsNumPair (v : JVal) : Prop :=
  ∃ p q : ℚ, v = .arr [.num (.fin p), .num (.fin q)]

/-- A closed (or empty) ring value. -/
def ClosedRingV (v : JVal) : Prop :=
  ∃ es, v = .arr es ∧ es.head? = es.getLast?

/-- A ring that ends in a copy of its first point is closed. -/
theorem head_concat_closed (x z : JVal) (l : List JVal) (h : x = z) :
    (x :: l ++ [z]).head? = (x :: l ++ [z]).getLast? := by
  rw [show (x :: l ++ [z]).head? = some x from rfl,
    show (x :: l ++ [z]) = (x :: l) ++ [z] from rfl, List.getLast?_concat, h]

/-- Unfolding of `ringFix` on a nonempty array. -/
theorem ringFix_cons (x : JVal) (xs : List JVal) :
    ringFix (.arr (x :: xs)) = (do
      let f0 ← jsIndex x 0
      let l0 ← jsIndex ((x :: xs).getLast (by simp)) 0
      if jsNeqStrict xs.isEmpty f0 l0 then pushClose (x :: xs) x
      else do
        let f1 ← jsIndex x 1
        let l1 ← jsIndex ((x :: xs).getLast (by simp)) 1
        if jsNeqStrict xs.isEmpty f1 l1 then pushClose (x :: xs) x
        else pure (.arr (x :: xs))) := rfl

/-- `ringFix` on a nonempty list of finite-number pairs succeeds and
closes the ring. -/
theorem ringFix_pairs (x : JVal) (xs : List JVal)
    (hall : ∀ p ∈ x :: xs, IsNumPair p) :
    ∃ v, ringFix (.arr (x :: xs)) = .ok v ∧ ClosedRingV v := by
  obtain ⟨a, b, hx⟩ := hall x (by simp)
  have hlast : (x :: xs).getLast (by simp) ∈ x :: xs := List.getLast_mem _
  obtain ⟨c, d, hl⟩ := hall _ hlast
  rw [ringFix_cons]
  cases hxs : xs with
  | nil =>
    subst hxs
    simp only [List.getLast_singleton] at hl
    refine ⟨.arr [x], ?_, [x], rfl, rfl⟩
    rw [hx]
    simp [jsIndex, jsNeqStrict, JVal.isNaNV, Bind.bind, Except.bind, pure, Except.pure]
  | cons y ys =>
    subst hxs
    rw [hl, hx]
    have hsr : (y :: ys).isEmpty = false := rfl
    rw [hsr]
    by_cases hac : a = c
    · by_cases hbd : b = d
      · -- already closed: first equals last componentwise, hence as pairs
        refine ⟨.arr (x :: y :: ys), ?_, x :: y :: ys, rfl, ?_⟩
        · simp [jsIndex, jsNeqStrict, jsSEq, hac, hbd, Bind.bind, Except.bind, hx,
            pure, Except.pure]
        · rw [List.head?_cons, List.getLast?_eq_getLast _ (by simp), hl, hx, hac, hbd]
      · -- differs in the second coordinate: a copy of the first point is pushed
        refine ⟨.arr ((x :: y :: ys) ++ [.arr [.num (.fin a), .num (.fin b)]]), ?_,
          (x :: y :: ys) ++ [.arr [.num (.fin a), .num (.fin b)]], rfl, ?_⟩
        · simp [jsIndex, jsNeqStrict, jsSEq, hac, hbd, Bind.bind, Except.bind,
            pushClose, jsSpread, hx, pure, Except.pure]
        · exact head_concat_closed _ _ _ hx
    · -- differs in the first coordinate: a copy of the first point is pushed
      refine ⟨.arr ((x :: y :: ys) ++ [.arr [.num (.fin a), .num (.fin b)]]), ?_,
        (x :: y :: ys) ++ [.arr [.num (.fin a), .num (.fin b)]], rfl, ?_⟩
      · simp [jsIndex, jsNeqStrict, jsSEq, hac, Bind.bind, Except.bind,
          pushClose, jsSpread, hx, pure, Except.pure]
      · exact head_concat_closed _ _ _ hx


/-- `ringsFixList` succeeds and preserves closedness when every ring
does. -/
theorem ringsFixList_ok (rs : List JVal)
    (h : ∀ r ∈ rs, ∃ v, ringFix r = .ok v ∧ ClosedRingV v) :
    ∃ out, ringsFixList rs = .ok out ∧ ∀ v ∈ out, ClosedRingV v := by
  induction rs with
  | nil => exact ⟨[], rfl, by simp⟩
  | cons r rest ih =>
    obtain ⟨v, hv, hc⟩ := h r (by simp)
    obtain ⟨out, hout, hall⟩ := ih (fun x hx => h x (by simp [hx]))
    refine ⟨v :: out, ?_, ?_⟩
    · unfold ringsFixList
      rw [hv]
      simp [hout, Bind.bind, Except.bind, pure, Except.pure]
    · intro w hw
      rcases List.mem_cons.mp hw with h1 | h2
      · exact h1 ▸ hc
      · exact hall _ h2

/-- The elementwise recursion is a `map`. -/
theorem cleanCoordList_eq_map (xs : List JVal) :
    cleanCoordList xs = xs.map cleanCoordinatesRecursive := by
  induction xs with
  | nil => rfl
  | cons x rest ih => rw [List.map_cons]; unfold cleanCoordList; rw [ih]

/-- A list of leaf pairs is itself never a leaf pair (its elements are
arrays, not numbers or strings). -/
theorem isLeafPair_of_all_pairs (es : List JVal)
    (h : es.all JVal.isLeafPairV = true) : isLeafPair es = false := by
  match es with
  | [] => rfl
  | [a] => rfl
  | [a, b] =>
    have ha : a.isLeafPairV = true := by simp at h; exact h.1
    cases a with
    | arr xs => rfl
    | undef => simp [JVal.isLeafPairV] at ha
    | null => simp [JVal.isLeafPairV] at ha
    | bool x => simp [JVal.isLeafPairV] at ha
    | num n => simp [JVal.isLeafPairV] at ha
    | str s => simp [JVal.isLeafPairV] at ha
  | a :: b :: c :: rest => rfl

/-- Cleaning a well-formed ring input yields a value on which `ringFix`
succeeds with a closed ring. -/
theorem ringFix_clean_of_ok (r : JVal) (h : ringInputOK r = true) :
    ∃ v, ringFix (cleanCoordinatesRecursive r) = .ok v ∧ ClosedRingV v := by
  cases r with
  | undef => exact ⟨.arr [], rfl, [], rfl, rfl⟩
  | null => exact ⟨.arr [], rfl, [], rfl, rfl⟩
  | bool x => exact ⟨.arr [], rfl, [], rfl, rfl⟩
  | num n => exact ⟨.arr [], rfl, [], rfl, rfl⟩
  | str s => exact ⟨.arr [], rfl, [], rfl, rfl⟩
  | arr es =>
    unfold ringInputOK at h
    rcases Bool.or_eq_true_iff.mp h with he | hall
    · -- empty ring
      rw [List.isEmpty_eq_true] at he
      subst he
      exact ⟨.arr [], rfl, [], rfl, rfl⟩
    · -- a nonempty (or empty) array of leaf pairs
      have hnl := isLeafPair_of_all_pairs es hall
      unfold cleanCoordinatesRecursive
      rw [if_neg (by simp [hnl]), cleanCoordList_eq_map]
      cases hes : es.map cleanCoordinatesRecursive with
      | nil => exact ⟨.arr [], rfl, [], rfl, rfl⟩
      | cons x xs =>
        refine ringFix_pairs x xs ?_
        rw [← hes]
        intro p hp
        obtain ⟨e, he, hpe⟩ := List.mem_map.mp hp
        have hle : e.isLeafPairV = true := by
          have := List.all_eq_true.mp hall e he
          exact this
        cases e with
        | arr ys =>
          unfold JVal.isLeafPairV at hle
          subst hpe
          unfold cleanCoordinatesRecursive
          rw [if_pos hle]
          obtain ⟨p1, q1, hpq⟩ := cleanCoordinatePair_shape (.arr ys)
          exact ⟨p1, q1, hpq⟩
        | undef => simp [JVal.isLeafPairV] at hle
        | null => simp [JVal.isLeafPairV] at hle
        | bool c => simp [JVal.isLeafPairV] at hle
        | num n => simp [JVal.isLeafPairV] at hle
        | str s => simp [JVal.isLeafPairV] at hle

/-- **C2 (amended).** For every Polygon feature whose (deep-copied)
coordinate member is an array of well-formed rings — each ring either not
an array (it is replaced by an empty ring), or an empty array, or an
array consisting of leaf coordinate pairs — the validator succeeds and
every array ring of the result satisfies `ring[0] = ring[last]`
(vacuously for the empty ring).  Rings containing values that are not
leaf pairs are exempt: on those the closure check compares
`undefined`-valued indices and can leave the ring open (see the
counterexample). -/
theorem ensureCore_arr (fid : JVal) (props : List (String × JVal)) (t : JVal)
    (cs : List JVal) :
    ensureCore fid props ⟨t, .arr cs⟩ =
      (if jsSEq t (.str "Polygon") then
        match cleanCoordinatesRecursive (.arr cs) with
        | .arr rings => do
            let rings' ← ringsFixList rings
            pure ⟨fid, some ⟨t, .arr rings'⟩, some props⟩
        | other => pure ⟨fid, some ⟨t, other⟩, some props⟩
      else pure ⟨fid, some ⟨t, cleanCoordinatesRecursive (.arr cs)⟩, some props⟩) := rfl

theorem c2_closed_ring_invariant (f : Feature) (g : Geometry) (rs : List JVal)
    (hg : f.geometry = some g) (ht : g.gtype = .str "Polygon")
    (hc : jsonNormalize g.coords = .arr rs)
    (hrings : ∀ r ∈ rs, ringInputOK r = true) :
    ∃ out, ensurePolygonClosedAndClean f = .ok out ∧ RingsClosed out := by
  have hfc : (jsonCopyFeature f).geometry = some ⟨.str "Polygon", .arr rs⟩ := by
    unfold jsonCopyFeature
    rw [hg]
    show some (⟨jsonNormalize g.gtype, jsonNormalize g.coords⟩ : Geometry) = _
    rw [ht, hc]
    rfl
  have hmain : ensurePolygonClosedAndClean f
      = ensureCore (jsonCopyFeature f).fid ((jsonCopyFeature f).props.getD [])
          ⟨.str "Polygon", .arr rs⟩ := by
    show ensureCore (jsonCopyFeature f).fid ((jsonCopyFeature f).props.getD [])
        ((jsonCopyFeature f).geometry.getD ⟨.null, .arr []⟩) = _
    rw [hfc]
    rfl
  rw [hmain, ensureCore_arr, if_pos (by decide : jsSEq (.str "Polygon") (.str "Polygon") = true)]
  by_cases hlp : isLeafPair rs = true
  · -- the whole coordinate array is itself a leaf pair: both cleaned
    -- entries are numbers and are replaced by empty (closed) rings
    obtain ⟨p, q, hpq⟩ := cleanCoordinatePair_shape (.arr rs)
    rw [show cleanCoordinatesRecursive (.arr rs) = cleanCoordinatePair (.arr rs) from by
      unfold cleanCoordinatesRecursive; rw [if_pos hlp], hpq]
    refine ⟨_, rfl, ?_⟩
    intro g0 hg0 rs0 hrs0 r hr es hes
    cases hg0
    have hrs1 : rs0 = [.arr [], .arr []] := by
      cases hrs0
      rfl
    subst hrs1
    rcases List.mem_cons.mp hr with h1 | h2
    · subst h1; cases hes; rfl
    · rcases List.mem_cons.mp h2 with h3 | h4
      · subst h3; cases hes; rfl
      · simp at h4
  · -- the general case: the rings are cleaned elementwise and each closes
    have hcl : ∀ v ∈ cleanCoordList rs, ∃ w, ringFix v = .ok w ∧ ClosedRingV w := by
      rw [cleanCoordList_eq_map]
      intro v hv
      obtain ⟨r, hr, hvr⟩ := List.mem_map.mp hv
      exact hvr ▸ ringFix_clean_of_ok r (hrings r hr)
    obtain ⟨out, hout, hall⟩ := ringsFixList_ok _ hcl
    rw [show cleanCoordinatesRecursive (.arr rs) = .arr (cleanCoordList rs) from by
      unfold cleanCoordinatesRecursive; rw [if_neg hlp]]
    refine ⟨⟨(jsonCopyFeature f).fid, some ⟨.str "Polygon", .arr out⟩,
      some ((jsonCopyFeature f).props.getD [])⟩, ?_, ?_⟩
    · show (do
        let rings' ← ringsFixList (cleanCoordList rs)
        pure (⟨(jsonCopyFeature f).fid, some ⟨.str "Polygon", .arr rings'⟩,
          some ((jsonCopyFeature f).props.getD [])⟩ : Feature)) = _
      rw [hout]
      rfl
    · intro g0 hg0 rs0 hrs0 r hr es hes
      cases hg0
      cases hrs0
      obtain ⟨es', hes', hcl'⟩ := hall r hr
      rw [hes] at hes'
      cases hes'
      exact hcl'

/-- The spec's §8 example (4): an open square ring. -/
def wSquarePoly : Feature :=
  ⟨.num (.fin 5), some ⟨.str "Polygon",
    .arr [.arr [.arr [.num (.fin 0), .num (.fin 0)], .arr [.num (.fin 4), .num (.fin 0)],
      .arr [.num (.fin 4), .num (.fin 4)], .arr [.num (.fin 0), .num (.fin 4)]]]⟩, some []⟩

/-- Witness for C2 (amended): the open square ring is closed by the
validator. -/
theorem c2_closed_ring_invariant_witness :
    ∃ out, ensurePolygonClosedAndClean wSquarePoly = .ok out ∧ RingsClosed out :=
  c2_closed_ring_invariant wSquarePoly ⟨.str "Polygon",
      .arr [.arr [.arr [.num (.fin 0), .num (.fin 0)], .arr [.num (.fin 4), .num (.fin 0)],
        .arr [.num (.fin 4), .num (.fin 4)], .arr [.num (.fin 0), .num (.fin 4)]]]⟩
    [.arr [.arr [.num (.fin 0), .num (.fin 0)], .arr [.num (.fin 4), .num (.fin 0)],
      .arr [.num (.fin 4), .num (.fin 4)], .arr [.num (.fin 0), .num (.fin 4)]]]
    rfl rfl (by decide) (by decide)

/-- A Polygon whose single "ring" is a bare coordinate pair. -/
def wDegeneratePoly : Feature :=
  ⟨.num (.fin 7), some ⟨.str "Polygon", .arr [.arr [.num (.fin 1), .num (.fin 2)]]⟩, some []⟩

/-- Counterexample to C2 as stated: the claim promises
`ring[0] == ring[last]` for every ring of every validated Polygon, but
for the coordinate array `[[1, 2]]` — whose single "ring" is the bare
pair `[1, 2]` — the closure check indexes the numbers 1 and 2, obtains
`undefined` on both sides, deems the ring closed, and returns it with
first element 1 ≠ last element 2. -/
theorem c2_counterexample :
    ensurePolygonClosedAndClean wDegeneratePoly = .ok wDegeneratePoly
    ∧ ¬ RingsClosed wDegeneratePoly := by
  refine ⟨by decide, fun h => ?_⟩
  exact absurd
    (h ⟨.str "Polygon", .arr [.arr [.num (.fin 1), .num (.fin 2)]]⟩ rfl
      [.arr [.num (.fin 1), .num (.fin 2)]] rfl
      (.arr [.num (.fin 1), .num (.fin 2)]) (by simp)
      [.num (.fin 1), .num (.fin 2)] rfl)
    (by decide)

/-- A Polygon ring on which the closure check cannot raise: either not an
array (it is replaced), or an array all of whose elements are arrays (so
point indexing and spreading are defined). -/
def polygonRingSafe : JVal → Bool
  | .arr es => es.all JVal.isArr
  | _ => true

/-- Safety of a cleaned coordinate value: when it is an array of rings,
every ring is safe. -/
def ringsCleanSafe : JVal → Bool
  | .arr rings => rings.all polygonRingSafe
  | _ => true

/-- Safety of one (deep-copied) geometry: only Polygon geometry with an
array coordinate member reaches the closure loop. -/
def geomCleanSafe (g : Geometry) : Bool :=
  if jsSEq (jsonNormalize g.gtype) (.str "Polygon") then
    match jsonNormalize g.coords with
    | .arr cs => ringsCleanSafe (cleanCoordinatesRecursive (.arr cs))
    | _ => true
  else true

/-- The no-throw precondition of `ensurePolygonClosedAndClean`: when the
feature is a Polygon whose cleaned coordinate array exists, every cleaned
ring is `polygonRingSafe`. -/
def featureCleanSafe (f : Feature) : Bool :=
  match f.geometry with
  | none => true
  | some g => geomCleanSafe g

/-- `ringFix` cannot raise on a safe ring. -/
theorem ringFix_ok_of_safe (r : JVal) (h : polygonRingSafe r = true) :
    ∃ v, ringFix r = .ok v := by
  cases r with
  | arr es =>
    cases es with
    | nil => exact ⟨.arr [], rfl⟩
    | cons x xs =>
      unfold polygonRingSafe at h
      have hx : x.isArr = true := List.all_eq_true.mp h x (by simp)
      obtain ⟨xs0, hx0⟩ : ∃ a, x = .arr a := by
        cases x <;> simp [JVal.isArr] at hx ⊢
      subst hx0
      have hlarr : ((JVal.arr xs0 :: xs).getLast (by simp)).isArr = true :=
        List.all_eq_true.mp h _ (List.getLast_mem _)
      obtain ⟨ys0, hy0⟩ : ∃ a, (JVal.arr xs0 :: xs).getLast (by simp) = .arr a := by
        cases hgl : (JVal.arr xs0 :: xs).getLast (by simp) <;>
          rw [hgl] at hlarr <;> simp [JVal.isArr] at hlarr ⊢
      rw [ringFix_cons, hy0]
      simp only [jsIndex, Bind.bind, Except.bind]
      split
      · exact ⟨_, rfl⟩
      · split
        · exact ⟨_, rfl⟩
        · exact ⟨_, rfl⟩
  | undef => exact ⟨.arr [], rfl⟩
  | null => exact ⟨.arr [], rfl⟩
  | bool b => exact ⟨.arr [], rfl⟩
  | num n => exact ⟨.arr [], rfl⟩
  | str s => exact ⟨.arr [], rfl⟩

/-- `ringsFixList` cannot raise when every ring is safe. -/
theorem ringsFixList_ok_of_safe (rs : List JVal) (h : rs.all polygonRingSafe = true) :
    ∃ out, ringsFixList rs = .ok out := by
  induction rs with
  | nil => exact ⟨[], rfl⟩
  | cons r rest ih =>
    simp only [List.all_cons, Bool.and_eq_true] at h
    obtain ⟨v, hv⟩ := ringFix_ok_of_safe r h.1
    obtain ⟨out, hout⟩ := ih h.2
    refine ⟨v :: out, ?_⟩
    unfold ringsFixList
    rw [hv, hout]
    rfl

/-- Every successful result of the validator core carries a geometry and
a properties object. -/
theorem ensureCore_structural (fid : JVal) (props : List (String × JVal))
    (g : Geometry) :
    ∀ out, ensureCore fid props g = .ok out →
      out.geometry.isSome = true ∧ out.props.isSome = true := by
  intro out h
  unfold ensureCore at h
  split at h
  · split at h
    · split at h
      · rename_i rings hcleq
        cases hrf : ringsFixList rings with
        | ok rr =>
          rw [hrf] at h
          simp only [Bind.bind, Except.bind, pure, Except.pure, Except.ok.injEq] at h
          rw [← h]
          exact ⟨rfl, rfl⟩
        | error e =>
          rw [hrf] at h
          simp [Bind.bind, Except.bind] at h
      · simp only [pure, Except.pure, Except.ok.injEq] at h
        rw [← h]
        exact ⟨rfl, rfl⟩
    · simp only [pure, Except.pure, Except.ok.injEq] at h
      rw [← h]
      exact ⟨rfl, rfl⟩
  · simp only [pure, Except.pure, Except.ok.injEq] at h
    rw [← h]
    exact ⟨rfl, rfl⟩

/-- **C8 (amended).** The validator does *not* never-throw: indexing a
`null`/`undefined` ring point, or spreading a non-array first point,
raises a `TypeError` (see the counterexample).  It never throws provided
every element of every cleaned Polygon ring is an array
(`featureCleanSafe`), and whenever it returns, the result is a
structurally valid feature: its `geometry` and `properties` objects are
always present. -/
theorem c8_total_when_safe_and_structural (f : Feature) :
    (featureCleanSafe f = true → ∃ out, ensurePolygonClosedAndClean f = .ok out)
    ∧ ∀ out, ensurePolygonClosedAndClean f = .ok out →
        out.geometry.isSome = true ∧ out.props.isSome = true := by
  have hrw : ensurePolygonClosedAndClean f
      = ensureCore (jsonCopyFeature f).fid ((jsonCopyFeature f).props.getD [])
          ((jsonCopyFeature f).geometry.getD ⟨.null, .arr []⟩) := rfl
  constructor
  · intro hsafe
    rw [hrw]
    cases hgf : f.geometry with
    | none =>
      rw [show (jsonCopyFeature f).geometry = none from by
        unfold jsonCopyFeature; rw [hgf]; rfl]
      exact ⟨_, rfl⟩
    | some g =>
      rw [show (jsonCopyFeature f).geometry
          = some ⟨jsonNormalize g.gtype, jsonNormalize g.coords⟩ from by
        unfold jsonCopyFeature; rw [hgf]; rfl]
      simp only [Option.getD_some]
      unfold featureCleanSafe at hsafe
      rw [hgf] at hsafe
      have hs2 : geomCleanSafe g = true := hsafe
      unfold geomCleanSafe at hs2
      cases hnc : jsonNormalize g.coords with
      | arr cs =>
        rw [ensureCore_arr]
        by_cases hpoly : jsSEq (jsonNormalize g.gtype) (.str "Polygon") = true
        · rw [if_pos hpoly]
          rw [if_pos hpoly, hnc] at hs2
          have hs3 : ringsCleanSafe (cleanCoordinatesRecursive (.arr cs)) = true := hs2
          obtain ⟨ys, hys⟩ := cleanCoordinatesRecursive_arr cs
          rw [hys] at hs3 ⊢
          have hs4 : ys.all polygonRingSafe = true := hs3
          obtain ⟨out, hout⟩ := ringsFixList_ok_of_safe ys hs4
          refine ⟨⟨(jsonCopyFeature f).fid, some ⟨jsonNormalize g.gtype, .arr out⟩,
            some ((jsonCopyFeature f).props.getD [])⟩, ?_⟩
          show (do
            let rings' ← ringsFixList ys
            pure (⟨(jsonCopyFeature f).fid,
              some ⟨jsonNormalize g.gtype, .arr rings'⟩,
              some ((jsonCopyFeature f).props.getD [])⟩ : Feature)) = _
          rw [hout]
          rfl
        · rw [if_neg hpoly]
          exact ⟨_, rfl⟩
      | undef => exact ⟨_, rfl⟩
      | null => exact ⟨_, rfl⟩
      | bool b => exact ⟨_, rfl⟩
      | num n => exact ⟨_, rfl⟩
      | str s => exact ⟨_, rfl⟩
  · intro out h
    rw [hrw] at h
    exact ensureCore_structural _ _ _ out h

/-- Witness for C8 (amended): the open square Polygon is safe, cleans
successfully, and the result carries geometry and properties. -/
theorem c8_total_when_safe_and_structural_witness :
    featureCleanSafe wSquarePoly = true
    ∧ ∃ out, ensurePolygonClosedAndClean wSquarePoly = .ok out :=
  ⟨by decide, (c8_total_when_safe_and_structural wSquarePoly).1 (by decide)⟩

/-- A Polygon whose single ring contains a `null` point. -/
def wNullRingPoly : Feature :=
  ⟨.num (.fin 8), some ⟨.str "Polygon", .arr [.arr [.null]]⟩, some []⟩

/-- Counterexample to C8 as stated: the claim says the validator never
throws, but on a Polygon whose ring is `[null]` the closure check reads
`null[0]` and raises a `TypeError`. -/
theorem c8_counterexample :
    ensurePolygonClosedAndClean wNullRingPoly = .error () := by
  decide

/-- The indexed cyclic accumulation of the code equals the spec's sum
over consecutive (cyclically adjacent) vertex pairs. -/
theorem cyclicReduce_eq_consecutive (F : SPoint → SPoint → ℝ) (ps : List SPoint) :
    cyclicReduce F ps = ((consecutivePairs ps).map fun pq => F pq.1 pq.2).sum := by
  unfold cyclicReduce consecutivePairs
  have hlist : ((ps.zip (ps.rotate 1)).map fun pq => F pq.1 pq.2)
      = (List.range ps.length).map
          (fun i => F (ps.getD i (0, 0)) (ps.getD ((i + 1) % ps.length) (0, 0))) := by
    apply List.ext_getElem
    · simp
    · intro i h1 h2
      simp only [List.getElem_map, List.getElem_zip, List.getElem_range]
      have hi : i < ps.length := by simpa using h2
      rw [List.getElem_rotate]
      congr 1
      · simp [List.getD_eq_getElem?_getD, List.getElem?_eq_getElem hi]
      · have hm : (i + 1) % ps.length < ps.length := Nat.mod_lt _ (by omega)
        simp [List.getD_eq_getElem?_getD, List.getElem?_eq_getElem hm]
  rw [hlist, List.sum_eq_foldl, List.foldl_map]

/-- **C9.** The stats projection computes, for a Polygon, its area by the
shoelace formula — the cyclic sum of cross terms over consecutive ring
vertices, halved — scaled by `10^-6` (signed in the `area` field; the
panel reports its magnitude, `displayedArea`), and its perimeter as the
cyclic sum of consecutive Euclidean distances scaled by `10^-3`; for a
Circle with truthy radius `r`, area `π·r²` scaled by `10^-6`, perimeter
`2·π·r` scaled by `10^-3`, plus the raw position. -/
theorem c9_stats_formulas (s : SFeature) :
    (∀ ring rest, s.geometry = .polygon (ring :: rest) →
      (getShapeStats s).area = some (shoelaceArea ring / 1000000)
      ∧ displayedArea (getShapeStats s) = some (|shoelaceArea ring| / 1000000)
      ∧ (getShapeStats s).perimeter = some (polygonPerimeter ring / 1000))
    ∧ (∀ c r, s.geometry = .circle c → s.props.radius = some r → r ≠ 0 →
      (getShapeStats s).area = some (Real.pi * r ^ 2 / 1000000)
      ∧ (getShapeStats s).perimeter = some (2 * Real.pi * r / 1000)
      ∧ (getShapeStats s).position = some c) := by
  constructor
  · intro ring rest hg
    have hstats : getShapeStats s = ⟨s.props.ptype, s.props.color,
        some (cyclicReduce crossTerm ring / 2 / 1000000),
        some (cyclicReduce euclid ring / 1000), none, none⟩ := by
      unfold getShapeStats
      rw [hg]
      rfl
    have harea : cyclicReduce crossTerm ring / 2 = shoelaceArea ring := by
      rw [cyclicReduce_eq_consecutive]
      rfl
    have hper : cyclicReduce euclid ring = polygonPerimeter ring := by
      rw [cyclicReduce_eq_consecutive]
      rfl
    refine ⟨by rw [hstats]; show some _ = _; rw [harea], ?_,
      by rw [hstats]; show some _ = _; rw [hper]⟩
    unfold displayedArea
    rw [hstats]
    show some |cyclicReduce crossTerm ring / 2 / 1000000| = _
    rw [harea, abs_div, abs_of_pos (by norm_num : (0:ℝ) < 1000000)]
  · intro c r hg hr hr0
    have hstats : getShapeStats s = (if r ≠ 0 then
        ⟨s.props.ptype, s.props.color, some (Real.pi * r * r / 1000000),
          some (2 * Real.pi * r / 1000), none, some c⟩
      else ⟨s.props.ptype, s.props.color, none, none, none, some c⟩) := by
      unfold getShapeStats
      rw [hg, hr]
    rw [hstats, if_pos hr0]
    refine ⟨?_, rfl, rfl⟩
    show some _ = some _
    congr 1
    ring

/-- A concrete square polygon shape for the stats witnesses. -/
def wSqStat : SFeature :=
  ⟨.polygon [[(0, 0), (4, 0), (4, 4), (0, 4)]], ⟨"polygon", "#fff", none⟩⟩

/-- A concrete circle shape (radius 3) for the stats witnesses. -/
def wCircStat : SFeature := ⟨.circle (1, 2), ⟨"circle", "#fff", some 3⟩⟩

/-- Witness for C9: the square's stats follow the shoelace/perimeter
formulas, and the radius-3 circle yields `π·3²/10⁶` and `2π·3/10³`. -/
theorem c9_stats_formulas_witness :
    (getShapeStats wSqStat).area
        = some (shoelaceArea [(0, 0), (4, 0), (4, 4), (0, 4)] / 1000000)
    ∧ (getShapeStats wSqStat).perimeter
        = some (polygonPerimeter [(0, 0), (4, 0), (4, 4), (0, 4)] / 1000)
    ∧ (getShapeStats wCircStat).area = some (Real.pi * 3 ^ 2 / 1000000)
    ∧ (getShapeStats wCircStat).perimeter = some (2 * Real.pi * 3 / 1000) :=
  ⟨((c9_stats_formulas wSqStat).1 _ [] rfl).1,
   ((c9_stats_formulas wSqStat).1 _ [] rfl).2.2,
   ((c9_stats_formulas wCircStat).2 (1, 2) 3 rfl rfl (by norm_num)).1,
   ((c9_stats_formulas wCircStat).2 (1, 2) 3 rfl rfl (by norm_num)).2.1⟩

/-- **C10.** A Circle feature whose `properties.radius` is absent or zero
(falsy) yields stats that carry the raw position but neither an area nor
a perimeter field — no failure and no zero-valued report. -/
theorem c10_circle_no_radius (s : SFeature) (c : SPoint)
    (hg : s.geometry = .circle c)
    (hr : s.props.radius = none ∨ s.props.radius = some 0) :
    (getShapeStats s).area = none ∧ (getShapeStats s).perimeter = none
    ∧ (getShapeStats s).position = some c := by
  rcases hr with hr | hr
  · have hstats : getShapeStats s
        = ⟨s.props.ptype, s.props.color, none, none, none, some c⟩ := by
      unfold getShapeStats
      rw [hg, hr]
    rw [hstats]
    exact ⟨rfl, rfl, rfl⟩
  · have hstats : getShapeStats s = (if (0:ℝ) ≠ 0 then
        ⟨s.props.ptype, s.props.color, some (Real.pi * 0 * 0 / 1000000),
          some (2 * Real.pi * 0 / 1000), none, some c⟩
      else ⟨s.props.ptype, s.props.color, none, none, none, some c⟩) := by
      unfold getShapeStats
      rw [hg, hr]
    rw [hstats, if_neg (by norm_num)]
    exact ⟨rfl, rfl, rfl⟩

/-- A circle shape with no radius property. -/
def wCircNoRad : SFeature := ⟨.circle (5, 6), ⟨"circle", "#fff", none⟩⟩

/-- Witness for C10: the radius-less circle reports position only. -/
theorem c10_circle_no_radius_witness :
    (getShapeStats wCircNoRad).area = none
    ∧ (getShapeStats wCircNoRad).perimeter = none
    ∧ (getShapeStats wCircNoRad).position = some (5, 6) :=
  c10_circle_no_radius wCircNoRad (5, 6) rfl (Or.inl rfl)

/-- Lookup after erasing a different key. -/
theorem lmGet_erase_ne (lm : LayerMap) (k' k : String) (h : k' ≠ k) :
    lmGet (lmErase lm k') k = lmGet lm k := by
  induction lm with
  | nil => rfl
  | cons e rest ih =>
    show lmGet (List.filter (fun x => !(x.1 == k')) (e :: rest)) k = lmGet (e :: rest) k
    rw [List.filter_cons]
    by_cases he : e.1 = k'
    · rw [if_neg (by simp [he])]
      rw [show lmGet (e :: rest) k = lmGet rest k from by
        simp only [lmGet]
        rw [if_neg (by rw [he]; exact h)]]
      exact ih
    · rw [if_pos (by simp [he])]
      simp only [lmGet]
      by_cases hek : e.1 = k
      · rw [if_pos hek, if_pos hek]
      · rw [if_neg hek, if_neg hek]
        exact ih

/-- Lookup in the in-place-update image at a different key. -/
theorem lmGet_mapset_ne (lm : LayerMap) (k' k : String) (v : Option Feature)
    (h : k' ≠ k) :
    lmGet (lm.map fun e => if e.1 == k' then (k', v) else e) k = lmGet lm k := by
  induction lm with
  | nil => rfl
  | cons e rest ih =>
    rw [List.map_cons]
    by_cases he : e.1 = k'
    · rw [if_pos (by simp [he])]
      simp only [lmGet]
      rw [if_neg h, if_neg (by rw [he]; exact h)]
      exact ih
    · rw [if_neg (by simp [he])]
      simp only [lmGet]
      by_cases hek : e.1 = k
      · rw [if_pos hek, if_pos hek]
      · rw [if_neg hek, if_neg hek]
        exact ih

/-- Lookup after setting a different key. -/
theorem lmGet_set_ne (lm : LayerMap) (k' k : String) (v : Option Feature)
    (h : k' ≠ k) :
    lmGet (lmSet lm k' v) k = lmGet lm k := by
  unfold lmSet
  split
  · exact lmGet_mapset_ne lm k' k v h
  · rename_i hfind
    revert hfind
    induction lm with
    | nil =>
      intro _
      show lmGet [(k', v)] k = none
      simp only [lmGet]
      rw [if_neg h]
    | cons e rest ih =>
      intro hfind
      show lmGet (e :: (rest ++ [(k', v)])) k = lmGet (e :: rest) k
      simp only [lmGet]
      by_cases hek : e.1 = k
      · rw [if_pos hek, if_pos hek]
      · rw [if_neg hek, if_neg hek]
        refine ih ?_
        intro hsome
        by_cases he : e.1 = k'
        · exact hfind (by rw [List.find?_cons_of_pos _ (by simp [he])]; rfl)
        · exact hfind (by rw [List.find?_cons_of_neg _ (by simp [he])]; exact hsome)

/-- Lookup after setting the same key. -/
theorem lmGet_set_self (lm : LayerMap) (k : String) (v : Option Feature) :
    lmGet (lmSet lm k v) k = some v := by
  unfold lmSet
  split
  · rename_i hfind
    revert hfind
    induction lm with
    | nil => intro hfind; simp at hfind
    | cons e rest ih =>
      intro hfind
      rw [List.map_cons]
      by_cases he : e.1 = k
      · rw [if_pos (by simp [he])]
        simp only [lmGet]
        simp
      · rw [if_neg (by simp [he])]
        simp only [lmGet]
        rw [if_neg he]
        refine ih ?_
        rw [List.find?_cons_of_neg _ (by simp [he])] at hfind
        exact hfind
  · rename_i hfind
    revert hfind
    induction lm with
    | nil =>
      intro _
      show lmGet [(k, v)] k = some v
      simp only [lmGet]
      simp
    | cons e rest ih =>
      intro hfind
      show lmGet (e :: (rest ++ [(k, v)])) k = some v
      simp only [lmGet]
      by_cases hek : e.1 = k
      · exact absurd (by rw [List.find?_cons_of_pos _ (by simp [hek])]; rfl :
          (List.find? (fun x => x.1 == k) (e :: rest)).isSome = true) hfind
      · rw [if_neg hek]
        refine ih ?_
        intro hsome
        exact hfind (by rw [List.find?_cons_of_neg _ (by simp [hek])]; exact hsome)

/-- Shape keys: `toString` succeeds on every non-`null`/`undefined` id
and agrees with the coercion key. -/
theorem mapM_keys (shapes : List Feature)
    (hids : ∀ s ∈ shapes, s.fid ≠ .null ∧ s.fid ≠ .undef) :
    shapes.mapM (fun s => jsToStringMethod s.fid)
      = .ok (shapes.map fun s => jsKey s.fid) := by
  induction shapes with
  | nil => rfl
  | cons s rest ih =>
    obtain ⟨h1, h2⟩ := hids s (by simp)
    have hm : jsToStringMethod s.fid = .ok (jsKey s.fid) := by
      unfold jsToStringMethod jsKey
      cases hv : s.fid
      · exact absurd hv h2
      · exact absurd hv h1
      · rfl
      · rfl
      · rfl
      · rfl
    rw [List.mapM_cons, hm, ih (fun x hx => hids x (by simp [hx]))]
    rfl

/-- Filtering an association list by a key set that contains `k`
preserves the lookup at `k`. -/
theorem lmGet_filter_keys (lm : LayerMap) (keys : List String) (k : String)
    (hk : keys.contains k = true) :
    lmGet (List.filter (fun e => keys.contains e.1) lm) k = lmGet lm k := by
  induction lm with
  | nil => rfl
  | cons e rest ih =>
    rw [List.filter_cons]
    by_cases he : keys.contains e.1 = true
    · rw [if_pos he]
      simp only [lmGet]
      by_cases hek : e.1 = k
      · rw [if_pos hek, if_pos hek]
      · rw [if_neg hek, if_neg hek]
        exact ih
    · rw [if_neg he]
      rw [show lmGet (e :: rest) k = lmGet rest k from by
        simp only [lmGet]
        rw [if_neg (by intro hh; rw [hh] at he; exact he hk)]]
      exact ih

/-- The removal pass never destroys a key that is still among the shape
keys. -/
theorem lmGet_removalPass (lm : LayerMap) (keys : List String) (k : String)
    (hk : keys.contains k = true) :
    lmGet (removalPass lm keys).2 k = lmGet lm k := by
  show lmGet (List.filter (fun e => keys.contains e.1) lm) k = lmGet lm k
  exact lmGet_filter_keys lm keys k hk

/-- Removal events never count as recreates, creates or style
applications. -/
theorem removalPass_counts (lm : LayerMap) (keys : List String) (k : String) :
    (removalPass lm keys).1.count (.recreatedEv k) = 0
    ∧ (removalPass lm keys).1.count (.createdEv k) = 0
    ∧ (removalPass lm keys).1.count (.styledEv k) = 0 := by
  have hshape : (removalPass lm keys).1
      = (List.filter (fun e => !keys.contains e.1) lm).map
          (fun e => SyncEv.removedEv e.1) := rfl
  rw [hshape]
  refine ⟨?_, ?_, ?_⟩ <;>
    · rw [List.count_eq_zero]
      intro he
      obtain ⟨x, _, hx⟩ := List.mem_map.mp he
      simp at hx

/-- `syncOne` after a successful clean. -/
theorem syncOne_ok (lm : LayerMap) (f cf : Feature)
    (hc : ensurePolygonClosedAndClean f = .ok cf) :
    syncOne lm f = .ok (syncApply lm f cf) := by
  unfold syncOne
  rw [hc]
  rfl

/-- `applyCurrentStyles` on one shape: either no layer is tracked and
nothing happens, or exactly one style application occurs and only the
shape's own key is updated. -/
theorem applyStylesOne_spec (lm : LayerMap) (shape : Feature) :
    applyStylesOne lm shape = ([], lm)
    ∨ ∃ lf', applyStylesOne lm shape
        = ([.styledEv (jsKey shape.fid)], lmSet lm (jsKey shape.fid) (some lf')) := by
  unfold applyStylesOne
  cases h : lmGet lm (jsKey shape.fid) with
  | none => exact Or.inl rfl
  | some lst => exact Or.inr ⟨_, rfl⟩

/-- Counting in a concatenation with two zero counts. -/
theorem count_append_zero (e : SyncEv) (l1 l2 : List SyncEv)
    (h1 : l1.count e = 0) (h2 : l2.count e = 0) : (l1 ++ l2).count e = 0 := by
  rw [List.count_append, h1, h2]

/-- No event of the create/recreate pair at a foreign key. -/
theorem count_mark_zero (k k' : String) (b : Bool) (h : k' ≠ k) :
    ((if b then [SyncEv.recreatedEv k'] else [SyncEv.createdEv k']).count
        (SyncEv.recreatedEv k) = 0)
    ∧ ((if b then [SyncEv.recreatedEv k'] else [SyncEv.createdEv k']).count
        (SyncEv.createdEv k) = 0)
    ∧ ((if b then [SyncEv.recreatedEv k'] else [SyncEv.createdEv k']).count
        (SyncEv.styledEv k) = 0) := by
  cases b <;> refine ⟨?_, ?_, ?_⟩ <;>
    · rw [List.count_eq_zero]
      intro hmem
      simp at hmem
      try exact h hmem.symm

/-- No styled event at a foreign key. -/
theorem count_styled_zero (k k' : String) (h : k' ≠ k) :
    ([SyncEv.styledEv k'].count (SyncEv.recreatedEv k) = 0)
    ∧ ([SyncEv.styledEv k'].count (SyncEv.createdEv k) = 0)
    ∧ ([SyncEv.styledEv k'].count (SyncEv.styledEv k) = 0) := by
  refine ⟨?_, ?_, ?_⟩ <;>
    · rw [List.count_eq_zero]
      intro hmem
      simp at hmem
      try exact h hmem.symm

/-- Processing a feature whose key (before and after cleaning) differs
from `k` neither touches the binding at `k` nor emits any event at
`k`. -/
theorem syncApply_frame (lm : LayerMap) (s cs : Feature) (k : String)
    (hk1 : jsKey s.fid ≠ k) (hk2 : jsKey cs.fid ≠ k) :
    lmGet (syncApply lm s cs).2 k = lmGet lm k
    ∧ (syncApply lm s cs).1.count (.recreatedEv k) = 0
    ∧ (syncApply lm s cs).1.count (.createdEv k) = 0
    ∧ (syncApply lm s cs).1.count (.styledEv k) = 0 := by
  unfold syncApply
  by_cases hd : syncDecision (lmGet lm (jsKey s.fid)) cs = true
  · rw [if_pos hd]
    set lm2 := lmSet (if (lmGet lm (jsKey s.fid)).isSome
        then lmErase lm (jsKey s.fid) else lm) (jsKey cs.fid) (some cs) with hlm2
    have hbase : lmGet lm2 k = lmGet lm k := by
      rw [hlm2, lmGet_set_ne _ _ _ _ hk2]
      by_cases ht : (lmGet lm (jsKey s.fid)).isSome = true
      · rw [if_pos ht, lmGet_erase_ne _ _ _ hk1]
      · rw [if_neg ht]
    obtain ⟨hm1, hm2, hm3⟩ := count_mark_zero k (jsKey s.fid)
      (lmGet lm (jsKey s.fid)).isSome hk1
    rcases applyStylesOne_spec lm2 cs with hsp | ⟨lf', hsp⟩
    · rw [hsp]
      exact ⟨hbase,
        count_append_zero _ _ _ hm1 rfl,
        count_append_zero _ _ _ hm2 rfl,
        count_append_zero _ _ _ hm3 rfl⟩
    · rw [hsp]
      obtain ⟨hs1, hs2, hs3⟩ := count_styled_zero k (jsKey cs.fid) hk2
      refine ⟨?_,
        count_append_zero _ _ _ hm1 hs1,
        count_append_zero _ _ _ hm2 hs2,
        count_append_zero _ _ _ hm3 hs3⟩
      show lmGet (lmSet lm2 (jsKey cs.fid) (some _)) k = lmGet lm k
      rw [lmGet_set_ne _ _ _ _ hk2, hbase]
  · rw [if_neg hd]
    rcases applyStylesOne_spec lm cs with hsp | ⟨lf', hsp⟩
    · rw [hsp]
      exact ⟨rfl, rfl, rfl, rfl⟩
    · rw [hsp]
      obtain ⟨hs1, hs2, hs3⟩ := count_styled_zero k (jsKey cs.fid) hk2
      exact ⟨lmGet_set_ne _ _ _ _ hk2, hs1, hs2, hs3⟩

/-- A fold step after a successful clean. -/
theorem syncStep_ok (a : List SyncEv × LayerMap) (f cs : Feature)
    (hc : ensurePolygonClosedAndClean f = .ok cs) :
    syncStep a f = .ok (a.1 ++ (syncApply a.2 f cs).1, (syncApply a.2 f cs).2) := by
  unfold syncStep
  rw [syncOne_ok a.2 f cs hc]
  rfl

/-- Styling a shape whose layer is tracked emits exactly the styled
event. -/
theorem applyStylesOne_styled (lm : LayerMap) (shape : Feature)
    (lst : Option Feature) (h : lmGet lm (jsKey shape.fid) = some lst) :
    ∃ lf', applyStylesOne lm shape
      = ([.styledEv (jsKey shape.fid)], lmSet lm (jsKey shape.fid) (some lf')) := by
  unfold applyStylesOne
  rw [h]
  exact ⟨_, rfl⟩

/-- Counts of the upsert events for the feature whose tracked layer is at
`k`: the recreate decision yields exactly one recreate and one style
application, the keep decision exactly one style application and no
recreate. -/
theorem syncApply_hit (lm : LayerMap) (f cf lf : Feature) (g cg : Geometry)
    (k : String)
    (hkf : jsKey f.fid = k) (hkc : jsKey cf.fid = k)
    (htr : lmGet lm k = some (some lf))
    (hlg : lf.geometry = some g) (hcg : cf.geometry = some cg) :
    ((!(jsSEq g.gtype cg.gtype)
        || !(jsonStringifyTop g.coords == jsonStringifyTop cg.coords)) = true →
      (syncApply lm f cf).1.count (.recreatedEv k) = 1
      ∧ (syncApply lm f cf).1.count (.createdEv k) = 0
      ∧ (syncApply lm f cf).1.count (.styledEv k) = 1)
    ∧ ((!(jsSEq g.gtype cg.gtype)
        || !(jsonStringifyTop g.coords == jsonStringifyTop cg.coords)) = false →
      (syncApply lm f cf).1.count (.recreatedEv k) = 0
      ∧ (syncApply lm f cf).1.count (.createdEv k) = 0
      ∧ (syncApply lm f cf).1.count (.styledEv k) = 1) := by
  have hdec : syncDecision (lmGet lm (jsKey f.fid)) cf
      = (!(jsSEq g.gtype cg.gtype)
        || !(jsonStringifyTop g.coords == jsonStringifyTop cg.coords)) := by
    rw [hkf, htr]
    show (match lf.geometry, cf.geometry with
      | some g, some cg => !(jsSEq g.gtype cg.gtype)
          || !(jsonStringifyTop g.coords == jsonStringifyTop cg.coords)
      | _, _ => true) = _
    rw [hlg, hcg]
  constructor
  · intro hb
    unfold syncApply
    rw [if_pos (by rw [hdec, hb])]
    rw [hkf, htr]
    have hsome : (some (some lf) : Option (Option Feature)).isSome = true := rfl
    rw [if_pos hsome, if_pos hsome, hkc]
    obtain ⟨lf', hsty⟩ := applyStylesOne_styled
      (lmSet (lmErase lm k) k (some cf)) cf (some cf)
      (by rw [hkc, lmGet_set_self])
    rw [hkc] at hsty
    rw [hsty]
    refine ⟨?_, ?_, ?_⟩ <;> simp [List.count_cons, List.count_nil]
  · intro hb
    unfold syncApply
    rw [if_neg (by rw [hdec, hb]; exact Bool.false_ne_true)]
    obtain ⟨lf', hsty⟩ := applyStylesOne_styled lm cf (some lf) (by rw [hkc]; exact htr)
    rw [hkc] at hsty
    rw [hsty]
    refine ⟨?_, ?_, ?_⟩ <;> simp [List.count_cons, List.count_nil]

/-- Folding the upsert step over features whose keys all differ from `k`
succeeds (given each cleans), preserves the binding at `k`, and adds no
event at `k`. -/
theorem foldPass_frame (k : String) (ss : List Feature) :
    ∀ (acc : List SyncEv) (lm0 : LayerMap),
    (∀ s ∈ ss, jsKey s.fid ≠ k
      ∧ ∃ cs, ensurePolygonClosedAndClean s = .ok cs ∧ jsKey cs.fid = jsKey s.fid) →
    ∃ evs lm', ss.foldlM syncStep (acc, lm0) = .ok (evs, lm')
      ∧ lmGet lm' k = lmGet lm0 k
      ∧ evs.count (.recreatedEv k) = acc.count (.recreatedEv k)
      ∧ evs.count (.createdEv k) = acc.count (.createdEv k)
      ∧ evs.count (.styledEv k) = acc.count (.styledEv k) := by
  induction ss with
  | nil => exact fun acc lm0 _ => ⟨acc, lm0, rfl, rfl, rfl, rfl, rfl⟩
  | cons s rest ih =>
    intro acc lm0 hss
    obtain ⟨hk1, cs, hok, hkeq⟩ := hss s (by simp)
    have hk2 : jsKey cs.fid ≠ k := by rw [hkeq]; exact hk1
    obtain ⟨hget, hc1, hc2, hc3⟩ := syncApply_frame lm0 s cs k hk1 hk2
    obtain ⟨evs, lm', hfold, hget', hd1, hd2, hd3⟩ :=
      ih (acc ++ (syncApply lm0 s cs).1) (syncApply lm0 s cs).2
        (fun x hx => hss x (by simp [hx]))
    refine ⟨evs, lm', ?_, by rw [hget', hget], ?_, ?_, ?_⟩
    · rw [List.foldlM_cons, syncStep_ok (acc, lm0) s cs hok]
      show rest.foldlM syncStep (acc ++ (syncApply lm0 s cs).1, (syncApply lm0 s cs).2)
          = .ok (evs, lm')
      exact hfold
    · rw [hd1, List.count_append, hc1]
      omega
    · rw [hd2, List.count_append, hc2]
      omega
    · rw [hd3, List.count_append, hc3]
      omega

/-- **C7.** In one reconciliation pass over a store in which the feature
with tracked key `k` occurs once (at an arbitrary position, all other
shapes having different keys), a `modify` that changed the feature's
serialized coordinates but not its geometry type causes exactly one
recreate of its layer, no create, and exactly one style application; a
`modify` whose cleaned geometry compares equal (type and serialized
coordinates) — a property-only edit — causes zero recreates and exactly
one style application.  Geometry is thus never patched in place, and
property-only edits always take visual effect through the unconditional
restyle. -/
theorem c7_recreate_on_geometry_change (lm : LayerMap) (pre post : List Feature)
    (f cf lf : Feature) (g cg : Geometry) (k : String)
    (hkf : jsKey f.fid = k) (hkc : jsKey cf.fid = k)
    (hids : ∀ s ∈ pre ++ f :: post, s.fid ≠ .null ∧ s.fid ≠ .undef)
    (hothers : ∀ s ∈ pre ++ post, jsKey s.fid ≠ k
      ∧ ∃ cs, ensurePolygonClosedAndClean s = .ok cs ∧ jsKey cs.fid = jsKey s.fid)
    (htr : lmGet lm k = some (some lf))
    (hlg : lf.geometry = some g)
    (hcf : ensurePolygonClosedAndClean f = .ok cf)
    (hcg : cf.geometry = some cg) :
    ∃ evs lm', syncPass lm (pre ++ f :: post) = .ok (evs, lm')
    ∧ (jsSEq g.gtype cg.gtype = true →
        jsonStringifyTop g.coords ≠ jsonStringifyTop cg.coords →
        evs.count (.recreatedEv k) = 1 ∧ evs.count (.createdEv k) = 0
          ∧ evs.count (.styledEv k) = 1)
    ∧ (jsSEq g.gtype cg.gtype = true →
        jsonStringifyTop g.coords = jsonStringifyTop cg.coords →
        evs.count (.recreatedEv k) = 0 ∧ evs.count (.createdEv k) = 0
          ∧ evs.count (.styledEv k) = 1) := by
  -- keys of the whole pass
  have hkeys := mapM_keys (pre ++ f :: post) hids
  set keys := (pre ++ f :: post).map (fun s => jsKey s.fid) with hkeysdef
  have hkmem : keys.contains k = true := by
    rw [List.contains_iff_exists_mem_beq]
    exact ⟨k, by
      rw [hkeysdef]
      exact List.mem_map.mpr ⟨f, by simp, hkf⟩, by simp⟩
  -- the removal pass preserves the tracked binding and counts nothing
  have hrm := lmGet_removalPass lm keys k hkmem
  obtain ⟨hr1, hr2, hr3⟩ := removalPass_counts lm keys k
  -- the pre-fold is a frame
  obtain ⟨evs1, lm1, hfold1, hget1, he1, he2, he3⟩ :=
    foldPass_frame k pre (removalPass lm keys).1 (removalPass lm keys).2
      (fun s hs => hothers s (by simp [hs]))
  have htr1 : lmGet lm1 k = some (some lf) := by rw [hget1, hrm, htr]
  -- the feature itself
  have hhit := syncApply_hit lm1 f cf lf g cg k hkf hkc htr1 hlg hcg
  -- the post-fold is a frame
  obtain ⟨evs2, lm2, hfold2, _, hf1, hf2, hf3⟩ :=
    foldPass_frame k post (evs1 ++ (syncApply lm1 f cf).1) (syncApply lm1 f cf).2
      (fun s hs => hothers s (by simp [hs]))
  refine ⟨evs2, lm2, ?_, ?_, ?_⟩
  · unfold syncPass
    rw [hkeys]
    show (pre ++ f :: post).foldlM syncStep (removalPass lm keys) = .ok (evs2, lm2)
    rw [List.foldlM_append]
    rw [show (removalPass lm keys) = ((removalPass lm keys).1, (removalPass lm keys).2)
      from rfl]
    rw [hfold1]
    show (f :: post).foldlM syncStep (evs1, lm1) = .ok (evs2, lm2)
    rw [List.foldlM_cons, syncStep_ok (evs1, lm1) f cf hcf]
    exact hfold2
  · intro h1 h2
    have hb : (!(jsSEq g.gtype cg.gtype)
        || !(jsonStringifyTop g.coords == jsonStringifyTop cg.coords)) = true := by
      rw [h1]
      simp [h2]
    obtain ⟨hx1, hx2, hx3⟩ := hhit.1 hb
    refine ⟨?_, ?_, ?_⟩
    · rw [hf1, List.count_append, he1, hr1, hx1]
    · rw [hf2, List.count_append, he2, hr2, hx2]
    · rw [hf3, List.count_append, he3, hr3, hx3]
  · intro h1 h2
    have hb : (!(jsSEq g.gtype cg.gtype)
        || !(jsonStringifyTop g.coords == jsonStringifyTop cg.coords)) = false := by
      rw [h1, h2]
      simp
    obtain ⟨hx1, hx2, hx3⟩ := hhit.2 hb
    refine ⟨?_, ?_, ?_⟩
    · rw [hf1, List.count_append, he1, hr1, hx1]
    · rw [hf2, List.count_append, he2, hr2, hx2]
    · rw [hf3, List.count_append, he3, hr3, hx3]

/-- The tracked point moved to new coordinates (same id 1). -/
def wMovedPt : Feature :=
  ⟨.num (.fin 1), some ⟨.str "Point", .arr [.num (.fin 9), .num (.fin 9)]⟩, some []⟩

/-- The tracked point with only a property change (same geometry). -/
def wRecoloredPt : Feature :=
  ⟨.num (.fin 1), some ⟨.str "Point", .arr [.num (.fin 3), .num (.fin 4)]⟩,
    some [("color", .str "red")]⟩

/-- Witness for C7: with the id-1 point tracked, a coordinate change
yields exactly one recreate and one restyle; a property-only change
yields no recreate and one restyle. -/
theorem c7_recreate_on_geometry_change_witness :
    (∃ evs lm', syncPass [("1", some wFeatPt)] [wMovedPt] = .ok (evs, lm')
      ∧ evs.count (.recreatedEv "1") = 1 ∧ evs.count (.createdEv "1") = 0
      ∧ evs.count (.styledEv "1") = 1)
    ∧ (∃ evs lm', syncPass [("1", some wFeatPt)] [wRecoloredPt] = .ok (evs, lm')
      ∧ evs.count (.recreatedEv "1") = 0 ∧ evs.count (.createdEv "1") = 0
      ∧ evs.count (.styledEv "1") = 1) := by
  constructor
  · obtain ⟨evs, lm', hpass, hA, _⟩ := c7_recreate_on_geometry_change
      [("1", some wFeatPt)] [] [] wMovedPt wMovedPt wFeatPt
      ⟨.str "Point", .arr [.num (.fin 3), .num (.fin 4)]⟩
      ⟨.str "Point", .arr [.num (.fin 9), .num (.fin 9)]⟩ "1"
      (by decide) (by decide) (by decide) (by simp)
      (by decide) rfl (by decide) rfl
    obtain ⟨a1, a2, a3⟩ := hA (by decide) (by decide)
    exact ⟨evs, lm', hpass, a1, a2, a3⟩
  · obtain ⟨evs, lm', hpass, _, hB⟩ := c7_recreate_on_geometry_change
      [("1", some wFeatPt)] [] [] wRecoloredPt wRecoloredPt wFeatPt
      ⟨.str "Point", .arr [.num (.fin 3), .num (.fin 4)]⟩
      ⟨.str "Point", .arr [.num (.fin 3), .num (.fin 4)]⟩ "1"
      (by decide) (by decide) (by decide) (by simp)
      (by decide) rfl (by decide) rfl
    obtain ⟨b1, b2, b3⟩ := hB (by decide) (by decide)
    exact ⟨evs, lm', hpass, b1, b2, b3⟩
